import Mathlib

/-!
Verification development for SquirrelDB (`src/index.ts`), a schema-typed
record store over SQLite with value serialization and mirror replication.

The embedding models:
* dynamically-typed JavaScript values (`JSVal`) with JS truthiness and `typeof`;
* the platform JSON codec (`jsonStringify` / `jsonParse`), standing in for the
  JavaScript built-ins `JSON.stringify` / `JSON.parse` that the source calls:
  exact integers (no floats/NaN), minimal string escaping (backslash and quote),
  no insignificant whitespace — the fragment `JSON.stringify` actually emits;
* the storage engine (`bun:sqlite`) as an assoc-list store with the statement
  semantics the source relies on (CREATE TABLE IF NOT EXISTS, INSERT OR
  REPLACE, SELECT by primary key, DELETE); failures of the engine surface as
  `Err.native` errors, distinct from the `Err.kinded` errors the wrapper
  builds via `createError`;
* the SquirrelDB operations themselves, translated statement by statement from
  the source: local semantics on `DBState` in namespace `SquirrelDB`, and the
  mirror-replicating methods on `Instance` (an instance with its attached
  mirror instances).
-/

/-- A JavaScript runtime value, as far as the source manipulates them:
`undefined`, `null`, booleans, numbers (modelled as exact integers — the
claims under verification involve no float rounding, NaN or -0), strings,
arrays and plain objects (assoc lists in property-insertion order). -/
inductive JSVal where
  | undef
  | null
  | bool (b : Bool)
  | num (n : Int)
  | str (s : String)
  | arr (elems : List JSVal)
  | obj (fields : List (String × JSVal))

mutual
/-- Structural equality test on JS values (also standing in for the strict
`===` comparisons the source performs on primitives). -/
def JSVal.beq : JSVal → JSVal → Bool
  | .undef, .undef => true
  | .null, .null => true
  | .bool a, .bool b => a == b
  | .num a, .num b => a == b
  | .str a, .str b => a == b
  | .arr a, .arr b => beqElems a b
  | .obj a, .obj b => beqFields a b
  | _, _ => false
termination_by structural v => v

/-- `JSVal.beq` over element lists. -/
def beqElems : List JSVal → List JSVal → Bool
  | [], [] => true
  | a :: as, b :: bs => JSVal.beq a b && beqElems as bs
  | _, _ => false
termination_by structural l => l

/-- `JSVal.beq` over field lists. -/
def beqFields : List (String × JSVal) → List (String × JSVal) → Bool
  | [], [] => true
  | (k, a) :: as, (l, b) :: bs => k == l && JSVal.beq a b && beqFields as bs
  | _, _ => false
termination_by structural l => l
end

instance : BEq JSVal := ⟨JSVal.beq⟩

/-- JS truthiness: `undefined`, `null`, `false`, `0` and `""` are falsy;
every other value (including empty arrays and objects) is truthy. -/
def truthy : JSVal → Bool
  | .undef => false
  | .null => false
  | .bool b => b
  | .num n => n != 0
  | .str s => s != ""
  | .arr _ => true
  | .obj _ => true

/-- Is the value JS `null`? (the `value === null` / `!== null` tests). -/
def isNullV : JSVal → Bool
  | .null => true
  | _ => false

/-- Is the value JS `undefined`? (the `value !== undefined` tests). -/
def isUndefV : JSVal → Bool
  | .undef => true
  | _ => false

/-- The JS `typeof` operator (`typeof null` is `"object"`). -/
def jsTypeof : JSVal → String
  | .undef => "undefined"
  | .null => "object"
  | .bool _ => "boolean"
  | .num _ => "number"
  | .str _ => "string"
  | .arr _ => "object"
  | .obj _ => "object"

mutual
/-- `true` iff the value contains no `undefined` anywhere: the values that the
JSON data model can represent, for which `JSON.parse ∘ JSON.stringify` is the
structural identity. -/
def noUndef : JSVal → Bool
  | .undef => false
  | .null => true
  | .bool _ => true
  | .num _ => true
  | .str _ => true
  | .arr es => noUndefList es
  | .obj fs => noUndefFields fs
termination_by structural v => v

/-- `noUndef` over an array's elements. -/
def noUndefList : List JSVal → Bool
  | [] => true
  | e :: es => noUndef e && noUndefList es
termination_by structural l => l

/-- `noUndef` over an object's field values. -/
def noUndefFields : List (String × JSVal) → Bool
  | [] => true
  | (_, v) :: fs => noUndef v && noUndefFields fs
termination_by structural l => l
end

/-- Opening brace character (written via its code point). -/
def obr : Char := Char.ofNat 123

/-- Closing brace character (written via its code point). -/
def cbr : Char := Char.ofNat 125

/-- Double-quote character. -/
def dq : Char := Char.ofNat 34

/-- Backslash character. -/
def bsl : Char := Char.ofNat 92

/-- Is `c` a decimal digit? -/
def isDigitCh (c : Char) : Bool := 48 ≤ c.toNat && c.toNat ≤ 57

/-- The character for digit `d` (`d < 10`). -/
def digitCh (d : Nat) : Char := Char.ofNat (48 + d)

/-- Numeric value of a digit character. -/
def chDigit (c : Char) : Nat := c.toNat - 48

/-- Decimal digits of `n`, most significant first, with explicit fuel (the
fuel keeps the recursion structural so that concrete values reduce in the
kernel; `natDigits` supplies enough for any input). -/
def natDigitsF (fuel n : Nat) : List Nat :=
  match fuel with
  | 0 => [n]
  | f + 1 => if n < 10 then [n] else natDigitsF f (n / 10) ++ [n % 10]

/-- Decimal digits of `n`, most significant first. -/
def natDigits (n : Nat) : List Nat := natDigitsF n n

/-- Fold digits (most significant first) back into a number, over accumulator `a`. -/
def digitsVal (a : Nat) : List Nat → Nat
  | [] => a
  | d :: ds => digitsVal (a * 10 + d) ds

/-- Characters of a natural number in decimal. -/
def natChars (n : Nat) : List Char := (natDigits n).map digitCh

/-- Characters of an integer in decimal (minus sign for negatives). -/
def intChars (i : Int) : List Char :=
  if i < 0 then '-' :: natChars i.natAbs else natChars i.natAbs

/-- JSON string-body escaping: backslash-escape `"` and `\`, close with `"`.
(Control-character `\uXXXX` escapes are outside the model.) -/
def escBody : List Char → List Char
  | [] => [dq]
  | c :: cs =>
    if c = dq then bsl :: dq :: escBody cs
    else if c = bsl then bsl :: bsl :: escBody cs
    else c :: escBody cs

mutual
/-- Modelled from the platform: the characters `JSON.stringify` emits for a
value. Top-level `undefined` is rendered as `null` here (JavaScript returns
`undefined` instead; no claim exercises that corner, and `add` filters
`undefined` values out before serializing). Inside arrays JavaScript also
renders `undefined` elements as `null`; object fields with `undefined` values
are, in this model, rendered like any other (JavaScript drops them — again
only reachable for values that fail the `noUndef` cleanliness predicate). -/
def printJson : JSVal → List Char
  | .undef => ['n', 'u', 'l', 'l']
  | .null => ['n', 'u', 'l', 'l']
  | .bool b => if b then ['t', 'r', 'u', 'e'] else ['f', 'a', 'l', 's', 'e']
  | .num n => intChars n
  | .str s => dq :: escBody s.data
  | .arr es => '[' :: printElems es
  | .obj fs => obr :: printFields fs
termination_by structural v => v

/-- Array elements, comma separated, closed with `]`. -/
def printElems : List JSVal → List Char
  | [] => [']']
  | [e] => printJson e ++ [']']
  | e :: es => printJson e ++ ',' :: printElems es
termination_by structural l => l

/-- Object fields, comma separated, closed with the closing brace. -/
def printFields : List (String × JSVal) → List Char
  | [] => [cbr]
  | [(k, v)] => (dq :: escBody k.data) ++ ':' :: (printJson v ++ [cbr])
  | (k, v) :: fs => (dq :: escBody k.data) ++ ':' :: (printJson v ++ ',' :: printFields fs)
termination_by structural l => l
end

/-- Modelled from the platform: `JSON.stringify` as a string. -/
def jsonStringify (v : JSVal) : String := String.mk (printJson v)

/-- Take a maximal run of decimal digits. -/
def grabDigits : List Char → List Nat × List Char
  | [] => ([], [])
  | c :: cs =>
    if isDigitCh c then
      let (ds, r) := grabDigits cs
      (chDigit c :: ds, r)
    else ([], c :: cs)

/-- Parse a string body after the opening quote: unescape until the closing
quote; `none` on unterminated input. An escaped character stands for itself
(covering `\"` and `\\`, the escapes the printer emits). -/
def scanStr : List Char → Option (List Char × List Char)
  | [] => none
  | c :: cs =>
    if c = dq then some ([], cs)
    else if c = bsl then
      match cs with
      | [] => none
      | d :: cs' =>
        match scanStr cs' with
        | none => none
        | some (s, r) => some (d :: s, r)
    else
      match scanStr cs with
      | none => none
      | some (s, r) => some (c :: s, r)

mutual
/-- Modelled from the platform: recursive-descent JSON value parser. `fuel`
bounds the total number of parse steps; `parseJson` supplies enough for any
input. Accepts exactly the fragment `printJson` emits (integers, minimally
escaped strings, no whitespace). -/
def parseVal : Nat → List Char → Option (JSVal × List Char)
  | 0, _ => none
  | _ + 1, [] => none
  | fuel + 1, c :: cs =>
    if c = 'n' then
      match cs with
      | 'u' :: 'l' :: 'l' :: r => some (.null, r)
      | _ => none
    else if c = 't' then
      match cs with
      | 'r' :: 'u' :: 'e' :: r => some (.bool true, r)
      | _ => none
    else if c = 'f' then
      match cs with
      | 'a' :: 'l' :: 's' :: 'e' :: r => some (.bool false, r)
      | _ => none
    else if c = dq then
      match scanStr cs with
      | none => none
      | some (s, r) => some (.str (String.mk s), r)
    else if c = '-' then
      match grabDigits cs with
      | ([], _) => none
      | (ds, r) => some (.num (-(digitsVal 0 ds : Int)), r)
    else if isDigitCh c then
      match grabDigits (c :: cs) with
      | (ds, r) => some (.num (digitsVal 0 ds), r)
    else if c = '[' then
      parseElems fuel cs
    else if c = obr then
      parseFields fuel cs
    else none

/-- Parse array elements up to the closing `]`. -/
def parseElems : Nat → List Char → Option (JSVal × List Char)
  | 0, _ => none
  | _ + 1, [] => none
  | fuel + 1, c :: cs =>
    if c = ']' then some (.arr [], cs)
    else
      match parseVal fuel (c :: cs) with
      | none => none
      | some (v, r) =>
        match r with
        | ',' :: r' =>
          (match parseElems fuel r' with
           | some (.arr vs, r'') => some (.arr (v :: vs), r'')
           | _ => none)
        | ']' :: r' => some (.arr [v], r')
        | _ => none

/-- Parse object fields up to the closing brace. -/
def parseFields : Nat → List Char → Option (JSVal × List Char)
  | 0, _ => none
  | _ + 1, [] => none
  | fuel + 1, c :: cs =>
    if c = cbr then some (.obj [], cs)
    else if c = dq then
      match scanStr cs with
      | none => none
      | some (k, r) =>
        match r with
        | ':' :: r' =>
          (match parseVal fuel r' with
           | none => none
           | some (v, r'') =>
             match r'' with
             | ',' :: r3 =>
               (match parseFields fuel r3 with
                | some (.obj fs, r4) => some (.obj ((String.mk k, v) :: fs), r4)
                | _ => none)
             | c4 :: r3 =>
               if c4 = cbr then some (.obj [(String.mk k, v)], r3) else none
             | _ => none)
        | _ => none
    else none
end

/-- Structured error kinds of the source (`ErrorKind` enum). -/
inductive ErrorKind where
  | MissingValue
  | ParseException
  | InvalidType
deriving DecidableEq

/-- An error as observed by a caller: either an error built by the source's
`createError` (carrying an `ErrorKind`), or a platform/native exception that
the source let escape uncaught (e.g. a `SyntaxError` from `JSON.parse`, or an
`SQLiteError` from the storage engine), which carries no `kind` property. -/
inductive Err where
  | kinded (kind : ErrorKind) (msg : String)
  | native (name : String) (msg : String)
deriving DecidableEq

/-- The source's `createError`: an `Error` with a `kind` property. -/
def createError (msg : String) (kind : ErrorKind) : Err := .kinded kind msg

/-- JS string coercion of a primitive (what `JSON.parse` applies to a
non-string argument). Arrays/objects use their JS `toString` only in corners
no claim reaches; the model returns `""` there. -/
def jsStringCoerce : JSVal → String
  | .str s => s
  | .num n => String.mk (intChars n)
  | .bool true => "true"
  | .bool false => "false"
  | .null => "null"
  | .undef => "undefined"
  | .arr _ => ""
  | .obj _ => ""

/-- Modelled from the platform: `JSON.parse`. A failure is a *native*
`SyntaxError` — the source never catches it and never converts it into one of
its `ErrorKind` errors. -/
def jsonParse (s : String) : Except Err JSVal :=
  match parseVal (s.data.length + 1) s.data with
  | some (v, []) => .ok v
  | _ => .error (.native "SyntaxError" "Unexpected token in JSON")

/-! ### Data model: schemas, rows, database state -/

/-- A column's logical type (`ColumnType` in the source: `'string' | 'number'
| 'boolean' | 'json'`). -/
inductive CType where
  | string
  | number
  | boolean
  | json
deriving DecidableEq

/-- A column definition: name and type. -/
abbrev ColumnDefinition := String × CType

/-- A table schema: its ordered column list. -/
structure TableSchema where
  columns : List ColumnDefinition

/-- A JS record (`RowData` in the source): an object, i.e. an assoc list of
properties in insertion order. `hasOwnProperty c` is `(lookup c).isSome`. -/
abbrev RowData := List (String × JSVal)

/-- Property read `data[c]`: `undefined` when the property is absent. -/
def jsGet (data : RowData) (c : String) : JSVal := ((data.lookup c).getD .undef)

/-- Property write `data[c] = v`: overwrite in place, or append a new property. -/
def jsSet (data : RowData) (c : String) (v : JSVal) : RowData :=
  match data with
  | [] => [(c, v)]
  | (k, w) :: rest => if k = c then (k, v) :: rest else (k, w) :: jsSet rest c v

/-- A physical table of the storage engine: its column names and its rows.
Each row is keyed by the value stored in the `id` primary-key column and
holds the column/value pairs the inserting statement bound (columns a
statement omitted read back as SQL `NULL`). -/
structure PhysTable where
  cols : List String
  rows : List (JSVal × RowData)

/-- State of one database: the in-memory schema registry (`tableSchemas`) and
the storage engine's tables. -/
structure DBState where
  schemas : List (String × TableSchema)
  phys : List (String × PhysTable)

/-- Map-style insertion for assoc lists: overwrite the first binding in place,
or append (the behaviour of `Map.set`). -/
def assocSet {α : Type} (l : List (String × α)) (k : String) (v : α) : List (String × α) :=
  match l with
  | [] => [(k, v)]
  | (k', v') :: rest => if k' = k then (k', v) :: rest else (k', v') :: assocSet rest k v

/-! ### Storage engine model

The statements the source issues, as operations on `DBState.phys`. A failing
statement raises a *native* engine error (`Err.native "SQLiteError" _`): the
storage engine knows nothing of the wrapper's `ErrorKind`s. -/

/-- `CREATE TABLE IF NOT EXISTS name (cols…)`. Fails natively on a malformed
statement (empty table name) or duplicate column names in a genuinely new
table; an existing table is left untouched, whatever the column list says. -/
def sqlCreateTable (st : DBState) (name : String) (cols : List String) : Except Err DBState :=
  if name = "" then .error (.native "SQLiteError" "syntax error in CREATE TABLE")
  else
    match st.phys.lookup name with
    | some _ => .ok st
    | none =>
      if cols.Nodup then .ok { st with phys := assocSet st.phys name ⟨cols, []⟩ }
      else .error (.native "SQLiteError" "duplicate column name")

/-- `INSERT OR REPLACE INTO name (items.keys) VALUES (items.values)`: replaces
any row with the same primary key. Fails natively when the table or one of
the named columns does not exist, or when no `id` value is bound (the model
always binds one in reachable flows). -/
def sqlInsert (st : DBState) (name : String) (items : RowData) : Except Err DBState :=
  match st.phys.lookup name with
  | none => .error (.native "SQLiteError" ("no such table: " ++ name))
  | some tbl =>
    if (items.map Prod.fst).all (fun c => tbl.cols.contains c) then
      match items.lookup "id" with
      | none => .error (.native "SQLiteError" "NOT NULL constraint failed")
      | some key =>
        let rows' := tbl.rows.filter (fun r => !(r.fst == key)) ++ [(key, items)]
        .ok { st with phys := assocSet st.phys name ⟨tbl.cols, rows'⟩ }
    else .error (.native "SQLiteError" "table has no column named in INSERT")

/-- Project one stored row onto the selected columns: a selected column missing
from the stored binding list reads back as SQL `NULL`. -/
def projectRow (cols : List String) (row : RowData) : RowData :=
  cols.map (fun c => (c, (row.lookup c).getD .null))

/-- `SELECT cols FROM name WHERE id = key` (`.get`): first row whose primary
key equals `key`, projected; `none` when no row matches. -/
def sqlSelectOne (st : DBState) (name : String) (cols : List String) (key : JSVal) :
    Except Err (Option RowData) :=
  match st.phys.lookup name with
  | none => .error (.native "SQLiteError" ("no such table: " ++ name))
  | some tbl =>
    if cols.all (fun c => tbl.cols.contains c) then
      match tbl.rows.find? (fun r => r.fst == key) with
      | none => .ok none
      | some r => .ok (some (projectRow cols r.snd))
    else .error (.native "SQLiteError" "no such column")

/-- `SELECT cols FROM name`: all rows, projected, in physical order. -/
def sqlSelectAll (st : DBState) (name : String) (cols : List String) :
    Except Err (List RowData) :=
  match st.phys.lookup name with
  | none => .error (.native "SQLiteError" ("no such table: " ++ name))
  | some tbl =>
    if cols.all (fun c => tbl.cols.contains c) then
      .ok (tbl.rows.map (fun r => projectRow cols r.snd))
    else .error (.native "SQLiteError" "no such column")

/-- `SELECT cols FROM name WHERE id LIKE 'query%'`: rows whose text primary
key starts with `query`. (`LIKE`'s case folding and wildcard characters inside
`query` are outside the model; no claim depends on them.) -/
def sqlSelectLike (st : DBState) (name : String) (cols : List String) (query : String) :
    Except Err (List RowData) :=
  match st.phys.lookup name with
  | none => .error (.native "SQLiteError" ("no such table: " ++ name))
  | some tbl =>
    if cols.all (fun c => tbl.cols.contains c) then
      .ok ((tbl.rows.filter (fun r =>
        match r.fst with
        | .str s => query.isPrefixOf s
        | _ => false)).map (fun r => projectRow cols r.snd))
    else .error (.native "SQLiteError" "no such column")

/-- `DELETE FROM name WHERE id = key`: the new state and the number of rows
removed (`result.changes`). -/
def sqlDelete (st : DBState) (name : String) (key : JSVal) :
    Except Err (DBState × Nat) :=
  match st.phys.lookup name with
  | none => .error (.native "SQLiteError" ("no such table: " ++ name))
  | some tbl =>
    let kept := tbl.rows.filter (fun r => !(r.fst == key))
    .ok ({ st with phys := assocSet st.phys name ⟨tbl.cols, kept⟩ },
         tbl.rows.length - kept.length)

/-- `DELETE FROM name`: remove every row, returning how many. -/
def sqlDeleteAll (st : DBState) (name : String) :
    Except Err (DBState × Nat) :=
  match st.phys.lookup name with
  | none => .error (.native "SQLiteError" ("no such table: " ++ name))
  | some tbl =>
    .ok ({ st with phys := assocSet st.phys name ⟨tbl.cols, []⟩ }, tbl.rows.length)

/-! ### The SquirrelDB operations (local semantics)

Namespace `SquirrelDB` holds each public method's effect on the instance's own
`DBState`, translated line by line from `src/index.ts`. (`typeof` guards on
arguments that the embedding types as `String` are vacuously satisfied and
dropped.) The mirror-replication wrappers live on `Instance` below. -/

namespace SquirrelDB

/-- `getSQLiteType`: storage-primitive type name per logical column type. -/
def getSQLiteType : CType → String
  | .string => "TEXT"
  | .number => "REAL"
  | .boolean => "INTEGER"
  | .json => "TEXT"

/-- `serializeValue`: JSON values are stringified; booleans become `1`/`0`
(by the source's truthiness conditional `value ? 1 : 0`); everything else
passes through. -/
def serializeValue (value : JSVal) (type : CType) : JSVal :=
  match type with
  | .json => .str (jsonStringify value)
  | .boolean => if truthy value then .num 1 else .num 0
  | _ => value

/-- JS `Number(value)` on the primitives a `SELECT` can produce. (`NaN` is
outside the model: a stored non-numeric string coerces to `.num 0` here where
JavaScript yields `NaN`; unreachable for rows written by `add`, which stores
only numbers in `number` columns.) -/
def jsNumber : JSVal → JSVal
  | .num n => .num n
  | .bool true => .num 1
  | .bool false => .num 0
  | .null => .num 0
  | .str s => if s = "" then .num 0 else
      match parseVal (s.data.length + 1) s.data with
      | some (.num n, []) => .num n
      | _ => .num 0
  | _ => .num 0

/-- `deserializeValue`: stored `NULL` is returned as-is regardless of type;
`json` text is `JSON.parse`d (note: an invalid stored document raises the
*native* `SyntaxError` — the source has no `try`/`catch` here); `boolean`
compares the stored value with `1` (`value === 1`); `number` coerces with
`Number(...)`; text passes through. -/
def deserializeValue (value : JSVal) (type : CType) : Except Err JSVal :=
  if isNullV value then .ok .null
  else
    match type with
    | .json => jsonParse (jsStringCoerce value)
    | .boolean => .ok (.bool (value == .num 1))
    | .number => .ok (jsNumber value)
    | .string => .ok value

/-- The per-column loop of `validateRowData`: the first violated constraint
aborts with `InvalidType`. A column is only checked when the record has the
property (`hasOwnProperty`) with a non-`null` value; `json` accepts any value
in the model (serialization of cycle-free data never throws). -/
def checkColumns : List ColumnDefinition → RowData → Except Err Unit
  | [], _ => .ok ()
  | (columnName, columnType) :: rest, data =>
    match data.lookup columnName with
    | none => checkColumns rest data
    | some value =>
      if isNullV value then checkColumns rest data
      else
        match columnType with
        | .string =>
          if jsTypeof value = "string" then checkColumns rest data
          else .error (createError ("Column '" ++ columnName ++ "' expects string, got " ++ jsTypeof value) .InvalidType)
        | .number =>
          if jsTypeof value = "number" then checkColumns rest data
          else .error (createError ("Column '" ++ columnName ++ "' expects number, got " ++ jsTypeof value) .InvalidType)
        | .boolean =>
          if jsTypeof value = "boolean" then checkColumns rest data
          else .error (createError ("Column '" ++ columnName ++ "' expects boolean, got " ++ jsTypeof value) .InvalidType)
        | .json => checkColumns rest data

/-- `validateRowData`: unknown table → `InvalidType`; missing (falsy) `id` →
`MissingValue`; then the per-column type checks. -/
def validateRowData (st : DBState) (tableName : String) (data : RowData) : Except Err Unit :=
  match st.schemas.lookup tableName with
  | none => .error (createError ("Table " ++ tableName ++ " does not exist or has no schema defined") .InvalidType)
  | some schema =>
    if !truthy (jsGet data "id") then
      .error (createError "Field 'id' is required for all operations" .MissingValue)
    else
      checkColumns schema.columns data

/-- `createTableIfNotExists`: prepend an `('id', 'string')` column when no
column *named* `id` exists (the type of a caller-supplied `id` column is not
inspected), issue the idempotent CREATE TABLE, then register the schema.
A failed statement leaves the registry untouched (the `set` on line 85 of the
source runs after `exec`). -/
def createTableIfNotExists (st : DBState) (tableName : String) (schema : TableSchema) :
    Except Err DBState :=
  let columns :=
    if schema.columns.any (fun cd => cd.fst == "id") then schema.columns
    else ("id", CType.string) :: schema.columns
  match sqlCreateTable st tableName (columns.map Prod.fst) with
  | .error e => .error e
  | .ok st' => .ok { st' with schemas := assocSet st'.schemas tableName ⟨columns⟩ }

/-- `initTable` (local semantics): the `typeof tableName` and
`Array.isArray(schema.columns)` guards are vacuous for well-typed arguments —
in particular an *empty* name or an *empty* column list passes them — and
re-registration only warns, so the body reduces to `createTableIfNotExists`. -/
def initTable (st : DBState) (tableName : String) (schema : TableSchema) :
    Except Err DBState :=
  createTableIfNotExists st tableName schema

/-- The serialized column/value list `add` builds: schema columns the record
has with a non-`undefined` value, in schema order. -/
def insertItems (columns : List ColumnDefinition) (data : RowData) : RowData :=
  columns.filterMap (fun cd =>
    match data.lookup cd.fst with
    | none => none
    | some v => if isUndefV v then none else some (cd.fst, serializeValue v cd.snd))

/-- `add` (local semantics): validate, serialize the schema∩record columns,
`INSERT OR REPLACE`; an engine failure is caught and rewrapped as
`InvalidType`; returns the input record unchanged. -/
def add (st : DBState) (tableName : String) (data : RowData) :
    Except Err (DBState × RowData) :=
  match validateRowData st tableName data with
  | .error e => .error e
  | .ok _ =>
    match st.schemas.lookup tableName with
    | none => .error (.native "TypeError" "schema assertion failed")
    | some schema =>
      match sqlInsert st tableName (insertItems schema.columns data) with
      | .error _e => .error (createError ("Failed to insert data into table " ++ tableName) .InvalidType)
      | .ok st' => .ok (st', data)

/-- Deserialize a selected row through the schema columns (`get`'s loop):
only columns the row has (`row.hasOwnProperty`) are emitted; a `json` parse
failure propagates. -/
def deserializeRow : List ColumnDefinition → RowData → Except Err RowData
  | [], _ => .ok []
  | (c, ty) :: rest, row =>
    match row.lookup c with
    | none => deserializeRow rest row
    | some v =>
      match deserializeValue v ty with
      | .error e => .error e
      | .ok v' =>
        match deserializeRow rest row with
        | .error e => .error e
        | .ok tail => .ok ((c, v') :: tail)

/-- `get` (read-only): unknown table → `InvalidType`; select by id; absent row
→ `none`; otherwise the row deserialized through the schema. -/
def get (st : DBState) (tableName : String) (id : String) :
    Except Err (Option RowData) :=
  match st.schemas.lookup tableName with
  | none => .error (createError ("Table " ++ tableName ++ " does not exist or has no schema defined") .InvalidType)
  | some schema =>
    match sqlSelectOne st tableName (schema.columns.map Prod.fst) (.str id) with
    | .error e => .error e
    | .ok none => .ok none
    | .ok (some row) =>
      match deserializeRow schema.columns row with
      | .error e => .error e
      | .ok result => .ok (some result)

/-- Deserialize every selected row (`all`/`startsWith` mapping). -/
def deserializeRows (columns : List ColumnDefinition) : List RowData → Except Err (List RowData)
  | [] => .ok []
  | row :: rest =>
    match deserializeRow columns row with
    | .error e => .error e
    | .ok r =>
      match deserializeRows columns rest with
      | .error e => .error e
      | .ok rs => .ok (r :: rs)

/-- `all` (read-only): every row of the table, deserialized. -/
def all (st : DBState) (tableName : String) : Except Err (List RowData) :=
  match st.schemas.lookup tableName with
  | none => .error (createError ("Table " ++ tableName ++ " does not exist or has no schema defined") .InvalidType)
  | some schema =>
    match sqlSelectAll st tableName (schema.columns.map Prod.fst) with
    | .error e => .error e
    | .ok rows => deserializeRows schema.columns rows

/-- `has` (read-only): presence, via `get`. -/
def has (st : DBState) (tableName : String) (id : String) : Except Err Bool :=
  match get st tableName id with
  | .error e => .error e
  | .ok r => .ok r.isSome

/-- `delete` (local semantics): no schema lookup at all — the statement goes
straight to the engine (an unknown table fails *natively*, uncaught); returns
`1` if a row was removed, else `0`. -/
def delete (st : DBState) (tableName : String) (id : String) :
    Except Err (DBState × Nat) :=
  match sqlDelete st tableName (.str id) with
  | .error e => .error e
  | .ok (st', changes) => .ok (st', if changes > 0 then 1 else 0)

/-- `deleteAll` (local semantics): likewise schema-blind; returns the count. -/
def deleteAll (st : DBState) (tableName : String) :
    Except Err (DBState × Nat) :=
  match sqlDeleteAll st tableName with
  | .error e => .error e
  | .ok (st', changes) => .ok (st', changes)

/-- `startsWith` (read-only): unknown table → `InvalidType`; prefix select on
the id column, rows deserialized as in `all`. -/
def startsWith (st : DBState) (tableName : String) (query : String) :
    Except Err (List RowData) :=
  match st.schemas.lookup tableName with
  | none => .error (createError ("Table " ++ tableName ++ " does not exist or has no schema defined") .InvalidType)
  | some schema =>
    match sqlSelectLike st tableName (schema.columns.map Prod.fst) query with
    | .error e => .error e
    | .ok rows => deserializeRows schema.columns rows

/-- `increment` (local semantics): read the record (`MissingValue` if absent);
`record[column] || 0` — any *falsy* current value is coerced to `0`, only a
*truthy* non-number reaches the `typeof` guard — add the delta, write the
whole record back through `add`, return the new value. -/
def increment (st : DBState) (tableName : String) (id : String) (column : String)
    (value : Int) : Except Err (DBState × Int) :=
  match get st tableName id with
  | .error e => .error e
  | .ok none => .error (createError ("Record with id '" ++ id ++ "' not found in table '" ++ tableName ++ "'") .MissingValue)
  | .ok (some record) =>
    let rv := jsGet record column
    let currentValue := if truthy rv then rv else .num 0
    match currentValue with
    | .num n =>
      match add st tableName (jsSet record column (.num (n + value))) with
      | .error e => .error e
      | .ok (st', _) => .ok (st', n + value)
    | _ => .error (createError ("Column '" ++ column ++ "' is not a number") .InvalidType)

end SquirrelDB

/-! ### Mirrored instances

An `Instance` is a `SquirrelDB` object: its own state plus the ordered list of
attached mirrors (themselves full instances). The four mutating methods
perform the local operation first and then, on success, replay the *same
arguments* against each mirror in attachment order, awaiting each (recursively
— a mirror replays to its own mirrors); the first failure aborts the whole
call. The read-only methods consult only the local state. -/
inductive Instance where
  | mk (state : DBState) (mirrors : List Instance)

/-- The instance's own database state. -/
def Instance.state : Instance → DBState
  | .mk st _ => st

/-- The instance's attached mirrors, in attachment order. -/
def Instance.mirrors : Instance → List Instance
  | .mk _ ms => ms

mutual
/-- `initTable` with replication (`src/index.ts:180-206`). -/
def Instance.initTable : Instance → String → TableSchema → Except Err Instance
  | .mk st ms, tableName, schema =>
    match SquirrelDB.initTable st tableName schema with
    | .error e => .error e
    | .ok st' =>
      match initTableMirrors ms tableName schema with
      | .error e => .error e
      | .ok ms' => .ok (.mk st' ms')
termination_by structural i => i

/-- The `for (const mirror of this.mirrors) await mirror.initTable(...)` loop. -/
def initTableMirrors : List Instance → String → TableSchema → Except Err (List Instance)
  | [], _, _ => .ok []
  | m :: ms, tableName, schema =>
    match Instance.initTable m tableName schema with
    | .error e => .error e
    | .ok m' =>
      match initTableMirrors ms tableName schema with
      | .error e => .error e
      | .ok ms' => .ok (m' :: ms')
termination_by structural l => l
end

mutual
/-- `add` with replication (`src/index.ts:211-254`). -/
def Instance.add : Instance → String → RowData → Except Err Instance
  | .mk st ms, tableName, data =>
    match SquirrelDB.add st tableName data with
    | .error e => .error e
    | .ok (st', _) =>
      match addMirrors ms tableName data with
      | .error e => .error e
      | .ok ms' => .ok (.mk st' ms')
termination_by structural i => i

/-- The mirror replay loop of `add`. -/
def addMirrors : List Instance → String → RowData → Except Err (List Instance)
  | [], _, _ => .ok []
  | m :: ms, tableName, data =>
    match Instance.add m tableName data with
    | .error e => .error e
    | .ok m' =>
      match addMirrors ms tableName data with
      | .error e => .error e
      | .ok ms' => .ok (m' :: ms')
termination_by structural l => l
end

mutual
/-- `delete` with replication (`src/index.ts:345-371`). -/
def Instance.delete : Instance → String → String → Except Err (Instance × Nat)
  | .mk st ms, tableName, id =>
    match SquirrelDB.delete st tableName id with
    | .error e => .error e
    | .ok (st', n) =>
      match deleteMirrors ms tableName id with
      | .error e => .error e
      | .ok ms' => .ok (.mk st' ms', n)
termination_by structural i => i

/-- The mirror replay loop of `delete`. -/
def deleteMirrors : List Instance → String → String → Except Err (List Instance)
  | [], _, _ => .ok []
  | m :: ms, tableName, id =>
    match Instance.delete m tableName id with
    | .error e => .error e
    | .ok (m', _) =>
      match deleteMirrors ms tableName id with
      | .error e => .error e
      | .ok ms' => .ok (m' :: ms')
termination_by structural l => l
end

mutual
/-- `deleteAll` with replication (`src/index.ts:376-395`). -/
def Instance.deleteAll : Instance → String → Except Err (Instance × Nat)
  | .mk st ms, tableName =>
    match SquirrelDB.deleteAll st tableName with
    | .error e => .error e
    | .ok (st', n) =>
      match deleteAllMirrors ms tableName with
      | .error e => .error e
      | .ok ms' => .ok (.mk st' ms', n)
termination_by structural i => i

/-- The mirror replay loop of `deleteAll`. -/
def deleteAllMirrors : List Instance → String → Except Err (List Instance)
  | [], _ => .ok []
  | m :: ms, tableName =>
    match Instance.deleteAll m tableName with
    | .error e => .error e
    | .ok (m', _) =>
      match deleteAllMirrors ms tableName with
      | .error e => .error e
      | .ok ms' => .ok (m' :: ms')
termination_by structural l => l
end

/-- `get` on an instance: purely local (no mirror is consulted or written). -/
def Instance.get (i : Instance) (tableName : String) (id : String) :
    Except Err (Option RowData) :=
  SquirrelDB.get i.state tableName id

/-- `all` on an instance: purely local. -/
def Instance.all (i : Instance) (tableName : String) : Except Err (List RowData) :=
  SquirrelDB.all i.state tableName

/-- `has` on an instance: purely local. -/
def Instance.has (i : Instance) (tableName : String) (id : String) : Except Err Bool :=
  SquirrelDB.has i.state tableName id

/-- `startsWith` on an instance: purely local. -/
def Instance.startsWith (i : Instance) (tableName : String) (query : String) :
    Except Err (List RowData) :=
  SquirrelDB.startsWith i.state tableName query

/-! ### JSON codec correctness: digits -/

/-- `natDigitsF` does not depend on the fuel once it covers the input. -/
theorem natDigitsF_irrel : ∀ f g n, n ≤ f → n ≤ g → natDigitsF f n = natDigitsF g n := by
  intro f
  induction f with
  | zero =>
    intro g n hf _
    have : n = 0 := by omega
    subst this
    cases g with
    | zero => rfl
    | succ h => simp [natDigitsF]
  | succ f ih =>
    intro g n hf hg
    by_cases h10 : n < 10
    · cases g with
      | zero =>
        have : n = 0 := by omega
        subst this
        simp [natDigitsF]
      | succ h => simp [natDigitsF, h10]
    · cases g with
      | zero => omega
      | succ h =>
        have hdiv : n / 10 < n := Nat.div_lt_self (by omega) (by omega)
        simp only [natDigitsF, if_neg h10]
        rw [ih h (n / 10) (by omega) (by omega)]

/-- The defining unfolding of `natDigits`, fuel eliminated. -/
theorem natDigits_eq (n : Nat) :
    natDigits n = if n < 10 then [n] else natDigits (n / 10) ++ [n % 10] := by
  by_cases h10 : n < 10
  · cases n with
    | zero => simp [natDigits, natDigitsF]
    | succ m => simp [natDigits, natDigitsF, h10]
  · cases n with
    | zero => omega
    | succ m =>
      have hdiv : (m + 1) / 10 < m + 1 := Nat.div_lt_self (by omega) (by omega)
      simp only [natDigits, natDigitsF, if_neg h10]
      rw [natDigitsF_irrel m ((m + 1) / 10) ((m + 1) / 10) (by omega) (by omega)]

/-- Every digit produced is below 10. -/
theorem natDigits_lt10 (n : Nat) : ∀ d ∈ natDigits n, d < 10 := by
  induction n using Nat.strongRecOn with
  | _ n ih =>
    rw [natDigits_eq]
    by_cases h10 : n < 10
    · simp only [if_pos h10]
      intro d hd
      rw [List.mem_singleton] at hd
      omega
    · have hdiv : n / 10 < n := Nat.div_lt_self (by omega) (by omega)
      simp only [if_neg h10]
      intro d hd
      rcases List.mem_append.mp hd with h | h
      · exact ih (n / 10) hdiv d h
      · rw [List.mem_singleton] at h
        subst h
        exact Nat.mod_lt _ (by omega)

/-- There is at least one digit. -/
theorem natDigits_ne_nil (n : Nat) : natDigits n ≠ [] := by
  rw [natDigits_eq]
  by_cases h10 : n < 10 <;> simp [h10]

/-- `digitsVal` over an append runs the two halves in sequence. -/
theorem digitsVal_append (xs ys : List Nat) : ∀ a,
    digitsVal a (xs ++ ys) = digitsVal (digitsVal a xs) ys := by
  induction xs with
  | nil => intro a; rfl
  | cons d ds ih => intro a; simp [digitsVal, ih]

/-- Folding the digits of `n` over accumulator `a` shifts `a` and adds `n`. -/
theorem digitsVal_natDigits (n : Nat) : ∀ a,
    digitsVal a (natDigits n) = a * 10 ^ (natDigits n).length + n := by
  induction n using Nat.strongRecOn with
  | _ n ih =>
    intro a
    rw [natDigits_eq]
    by_cases h10 : n < 10
    · simp [h10, digitsVal]
    · have hdiv : n / 10 < n := Nat.div_lt_self (by omega) (by omega)
      simp only [if_neg h10]
      rw [digitsVal_append, ih (n / 10) hdiv a]
      simp only [digitsVal, List.length_append, List.length_singleton]
      have : 10 ^ ((natDigits (n / 10)).length + 1) = 10 ^ (natDigits (n / 10)).length * 10 :=
        pow_succ 10 _
      rw [this]
      have hmod := Nat.div_add_mod n 10
      ring_nf
      omega

/-- The plain digit fold recovers `n`. -/
theorem digitsVal_zero (n : Nat) : digitsVal 0 (natDigits n) = n := by
  have := digitsVal_natDigits n 0
  simpa using this

/-- `chDigit` inverts `digitCh` on digits. -/
theorem chDigit_digitCh (d : Nat) (h : d < 10) : chDigit (digitCh d) = d := by
  interval_cases d <;> decide

/-- `digitCh` produces digit characters. -/
theorem isDigitCh_digitCh (d : Nat) (h : d < 10) : isDigitCh (digitCh d) = true := by
  interval_cases d <;> decide

/-- Every character of `natChars n` is a digit character. -/
theorem natChars_digits (n : Nat) : ∀ c ∈ natChars n, isDigitCh c = true := by
  intro c hc
  rcases List.mem_map.mp hc with ⟨d, hd, rfl⟩
  exact isDigitCh_digitCh d (natDigits_lt10 n d hd)

/-- Reading the characters back as digit values recovers `natDigits`. -/
theorem natChars_map_chDigit (n : Nat) : (natChars n).map chDigit = natDigits n := by
  rw [natChars, List.map_map]
  have : ∀ d ∈ natDigits n, (chDigit ∘ digitCh) d = id d := by
    intro d hd
    simp [chDigit_digitCh d (natDigits_lt10 n d hd)]
  rw [List.map_congr_left this, List.map_id]

/-- `natChars` is nonempty. -/
theorem natChars_ne_nil (n : Nat) : natChars n ≠ [] := by
  rw [natChars]
  intro h
  exact natDigits_ne_nil n (List.map_eq_nil_iff.mp h)

/-- A remainder that cannot extend a digit run: empty or headed by a non-digit. -/
def numStop : List Char → Bool
  | [] => true
  | c :: _ => !isDigitCh c

/-- `grabDigits` does not start on a `numStop` remainder. -/
theorem grabDigits_stop (cs : List Char) (h : numStop cs = true) :
    grabDigits cs = ([], cs) := by
  cases cs with
  | nil => rfl
  | cons c t =>
    simp only [numStop, Bool.not_eq_true'] at h
    simp [grabDigits, h]

/-- `grabDigits` consumes exactly a leading digit run. -/
theorem grabDigits_run (ds : List Char) (hds : ∀ c ∈ ds, isDigitCh c = true)
    (rest : List Char) (hrest : numStop rest = true) :
    grabDigits (ds ++ rest) = (ds.map chDigit, rest) := by
  induction ds with
  | nil => simpa using grabDigits_stop rest hrest
  | cons c t ih =>
    have hc : isDigitCh c = true := hds c (List.mem_cons_self c t)
    have ht := ih (fun x hx => hds x (List.mem_cons_of_mem c hx))
    simp [grabDigits, hc, ht]

/-! ### JSON codec correctness: strings and shapes -/

/-- Scanning an escaped body (plus a closing quote and remainder) recovers it. -/
theorem scanStr_escBody (l : List Char) : ∀ rest, scanStr (escBody l ++ rest) = some (l, rest) := by
  induction l with
  | nil =>
    intro rest
    simp only [escBody, List.cons_append, List.nil_append]
    rw [scanStr.eq_def]
    simp
  | cons c cs ih =>
    intro rest
    by_cases hq : c = dq
    · subst hq
      simp only [escBody, if_pos rfl, List.cons_append]
      rw [scanStr.eq_def]
      simp +decide [ih rest]
    · by_cases hb : c = bsl
      · subst hb
        simp only [escBody, if_neg hq, if_pos rfl, List.cons_append]
        rw [scanStr.eq_def]
        simp +decide [ih rest]
      · simp only [escBody, if_neg hq, if_neg hb, List.cons_append]
        rw [scanStr.eq_def]
        simp [hq, hb, ih rest]

/-- A digit character is none of the parser's structural characters. -/
theorem isDigitCh_ne (c : Char) (h : isDigitCh c = true) :
    c ≠ 'n' ∧ c ≠ 't' ∧ c ≠ 'f' ∧ c ≠ dq ∧ c ≠ '-' ∧ c ≠ '[' ∧ c ≠ obr ∧
      c ≠ ']' ∧ c ≠ ',' ∧ c ≠ cbr ∧ c ≠ ':' := by
  refine ⟨?_, ?_, ?_, ?_, ?_, ?_, ?_, ?_, ?_, ?_, ?_⟩ <;>
    (intro hc; subst hc; exact absurd h (by decide))

/-- `natChars` starts with a digit character. -/
theorem natChars_cons (n : Nat) : ∃ c t, natChars n = c :: t ∧ isDigitCh c = true := by
  cases h : natChars n with
  | nil => exact absurd h (natChars_ne_nil n)
  | cons c t =>
    refine ⟨c, t, rfl, natChars_digits n c ?_⟩
    rw [h]
    exact List.mem_cons_self c t

/-- Printed output starts with a character that closes nothing: not `]`, `,`,
the closing brace, or `:`. -/
theorem printJson_head (v : JSVal) :
    ∃ c t, printJson v = c :: t ∧ c ≠ ']' ∧ c ≠ ',' ∧ c ≠ cbr ∧ c ≠ ':' := by
  cases v with
  | undef => exact ⟨'n', _, rfl, by decide, by decide, by decide, by decide⟩
  | null => exact ⟨'n', _, rfl, by decide, by decide, by decide, by decide⟩
  | bool b =>
    cases b with
    | true => exact ⟨'t', _, rfl, by decide, by decide, by decide, by decide⟩
    | false => exact ⟨'f', _, rfl, by decide, by decide, by decide, by decide⟩
  | str s => exact ⟨dq, _, rfl, by decide, by decide, by decide, by decide⟩
  | arr es => exact ⟨'[', _, rfl, by decide, by decide, by decide, by decide⟩
  | obj fs => exact ⟨obr, _, rfl, by decide, by decide, by decide, by decide⟩
  | num n =>
    by_cases hn : n < 0
    · refine ⟨'-', natChars n.natAbs, ?_, by decide, by decide, by decide, by decide⟩
      simp [printJson, intChars, hn]
    · obtain ⟨c, t, hct, hc⟩ := natChars_cons n.natAbs
      obtain ⟨_, _, _, _, _, _, _, h1, h2, h3, h4⟩ := isDigitCh_ne c hc
      refine ⟨c, t, ?_, h1, h2, h3, h4⟩
      simp [printJson, intChars, hn, hct]

/-! ### JSON codec correctness: sizes versus fuel -/

mutual
/-- Parse-step budget of a value: enough fuel for the parser to rebuild it. -/
def sizeJ : JSVal → Nat
  | .arr es => sizeL es + 1
  | .obj fs => sizeF fs + 1
  | _ => 1
termination_by structural v => v

/-- Budget of an element list. -/
def sizeL : List JSVal → Nat
  | [] => 1
  | e :: es => sizeJ e + sizeL es
termination_by structural l => l

/-- Budget of a field list. -/
def sizeF : List (String × JSVal) → Nat
  | [] => 1
  | (_, v) :: fs => sizeJ v + sizeF fs
termination_by structural l => l
end

/-- Values cost at least one step. -/
theorem sizeJ_pos (v : JSVal) : 1 ≤ sizeJ v := by
  cases v <;> simp [sizeJ]

/-- Element lists cost at least one step. -/
theorem sizeL_pos (l : List JSVal) : 1 ≤ sizeL l := by
  cases l with
  | nil => simp [sizeL]
  | cons e es => have := sizeJ_pos e; simp [sizeL]; omega

/-- Field lists cost at least one step. -/
theorem sizeF_pos (l : List (String × JSVal)) : 1 ≤ sizeF l := by
  cases l with
  | nil => simp [sizeF]
  | cons f fs =>
    obtain ⟨a, b⟩ := f
    have := sizeJ_pos b
    simp [sizeF]
    omega

mutual
/-- The printed form is at least as long as the parse budget, so length-based
fuel always suffices. -/
theorem sizeJ_le_len : ∀ v : JSVal, sizeJ v ≤ (printJson v).length
  | .undef => by simp [sizeJ, printJson]
  | .null => by simp [sizeJ, printJson]
  | .bool true => by simp [sizeJ, printJson]
  | .bool false => by simp [sizeJ, printJson]
  | .num n => by
    obtain ⟨c, t, hct, _⟩ := natChars_cons n.natAbs
    by_cases hn : n < 0 <;> simp [sizeJ, printJson, intChars, hn, hct]
  | .str s => by simp [sizeJ, printJson]
  | .arr es => by
    have := sizeL_le_len es
    simp [sizeJ, printJson]
    omega
  | .obj fs => by
    have := sizeF_le_len fs
    simp [sizeJ, printJson]
    omega
termination_by structural v => v

/-- Element-list version of `sizeJ_le_len`. -/
theorem sizeL_le_len : ∀ es : List JSVal, sizeL es ≤ (printElems es).length
  | [] => by simp [sizeL, printElems]
  | [e] => by
    have := sizeJ_le_len e
    simp [sizeL, printElems]
    omega
  | e :: f :: fs => by
    have h1 := sizeJ_le_len e
    have h2 := sizeL_le_len (f :: fs)
    simp only [sizeL, printElems, List.length_append, List.length_cons] at *
    omega
termination_by structural l => l

/-- Field-list version of `sizeJ_le_len`. -/
theorem sizeF_le_len : ∀ fs : List (String × JSVal), sizeF fs ≤ (printFields fs).length
  | [] => by simp [sizeF, printFields]
  | [(k, v)] => by
    have := sizeJ_le_len v
    simp [sizeF, printFields]
    omega
  | (k, v) :: g :: gs => by
    have h1 := sizeJ_le_len v
    have h2 := sizeF_le_len (g :: gs)
    obtain ⟨gk, gv⟩ := g
    simp only [sizeF, printFields, List.length_append, List.length_cons] at *
    omega
termination_by structural l => l
end

/-! ### JSON codec correctness: the parser inverts the printer -/

/-- Step: the string branch of the parser. -/
theorem parseVal_dq (f : Nat) (cs : List Char) : parseVal (f + 1) (dq :: cs) =
    (match scanStr cs with
     | none => none
     | some (s, r) => some (.str (String.mk s), r)) := rfl

/-- Step: the negative-number branch of the parser. -/
theorem parseVal_minus (f : Nat) (cs : List Char) : parseVal (f + 1) ('-' :: cs) =
    (match grabDigits cs with
     | ([], _) => none
     | (ds, r) => some (.num (-(digitsVal 0 ds : Int)), r)) := rfl

/-- Step: the array branch of the parser. -/
theorem parseVal_lbracket (f : Nat) (cs : List Char) :
    parseVal (f + 1) ('[' :: cs) = parseElems f cs := rfl

/-- Step: the object branch of the parser. -/
theorem parseVal_lbrace (f : Nat) (cs : List Char) :
    parseVal (f + 1) (obr :: cs) = parseFields f cs := rfl

/-- Step: a digit head goes through `grabDigits`. -/
theorem parseVal_digit (f : Nat) (c : Char) (cs : List Char) (h : isDigitCh c = true) :
    parseVal (f + 1) (c :: cs) =
      (match grabDigits (c :: cs) with
       | (ds, r) => some (.num (digitsVal 0 ds), r)) := by
  obtain ⟨h1, h2, h3, h4, h5, _, _, _, _, _, _⟩ := isDigitCh_ne c h
  rw [parseVal.eq_def]
  simp [h1, h2, h3, h4, h5, h]

/-- Step: a non-`]` head of an element list parses a value first. -/
theorem parseElems_go (f : Nat) (c : Char) (cs : List Char) (h : c ≠ ']') :
    parseElems (f + 1) (c :: cs) =
      (match parseVal f (c :: cs) with
       | none => none
       | some (v, r) =>
         match r with
         | ',' :: r' =>
           (match parseElems f r' with
            | some (.arr vs, r'') => some (.arr (v :: vs), r'')
            | _ => none)
         | ']' :: r' => some (.arr [v], r')
         | _ => none) := by
  rw [parseElems.eq_def]
  simp [h]

/-- Step: a quoted key starts a field entry. -/
theorem parseFields_dq (f : Nat) (cs : List Char) : parseFields (f + 1) (dq :: cs) =
    (match scanStr cs with
     | none => none
     | some (k, r) =>
       match r with
       | ':' :: r' =>
         (match parseVal f r' with
          | none => none
          | some (v, r'') =>
            match r'' with
            | ',' :: r3 =>
              (match parseFields f r3 with
               | some (.obj fs, r4) => some (.obj ((String.mk k, v) :: fs), r4)
               | _ => none)
            | c4 :: r3 =>
              if c4 = cbr then some (.obj [(String.mk k, v)], r3) else none
            | _ => none)
       | _ => none) := rfl

/-- Conditional step: one element followed by `]` closes a singleton array. -/
theorem parseElems_single (f : Nat) (c : Char) (cs : List Char) (h : c ≠ ']')
    (v : JSVal) (r2 : List Char) (hv : parseVal f (c :: cs) = some (v, ']' :: r2)) :
    parseElems (f + 1) (c :: cs) = some (.arr [v], r2) := by
  rw [parseElems.eq_def]
  simp [h, hv]

/-- Conditional step: an element followed by `,` conses onto the parsed tail. -/
theorem parseElems_cons (f : Nat) (c : Char) (cs : List Char) (h : c ≠ ']')
    (v : JSVal) (r : List Char) (hv : parseVal f (c :: cs) = some (v, ',' :: r))
    (vs : List JSVal) (r2 : List Char) (he : parseElems f r = some (.arr vs, r2)) :
    parseElems (f + 1) (c :: cs) = some (.arr (v :: vs), r2) := by
  rw [parseElems.eq_def]
  simp [h, hv, he]

/-- Conditional step: one field followed by the closing brace. -/
theorem parseFields_single (f : Nat) (cs k r : List Char)
    (hk : scanStr cs = some (k, ':' :: r))
    (v : JSVal) (r2 : List Char) (hv : parseVal f r = some (v, cbr :: r2)) :
    parseFields (f + 1) (dq :: cs) = some (.obj [(String.mk k, v)], r2) := by
  rw [parseFields.eq_def]
  simp +decide [hk, hv]

/-- Conditional step: a field followed by `,` conses onto the parsed tail. -/
theorem parseFields_cons (f : Nat) (cs k r : List Char)
    (hk : scanStr cs = some (k, ':' :: r))
    (v : JSVal) (r2 : List Char) (hv : parseVal f r = some (v, ',' :: r2))
    (fs : List (String × JSVal)) (r3 : List Char)
    (hf : parseFields f r2 = some (.obj fs, r3)) :
    parseFields (f + 1) (dq :: cs) = some (.obj ((String.mk k, v) :: fs), r3) := by
  rw [parseFields.eq_def]
  simp +decide [hk, hv, hf]

/-- Splitting cleanliness of a cons element list. -/
theorem noUndefList_cons {e : JSVal} {es : List JSVal} (h : noUndefList (e :: es) = true) :
    noUndef e = true ∧ noUndefList es = true := by
  have h' : (noUndef e && noUndefList es) = true := h
  exact Bool.and_eq_true_iff.mp h'

/-- Splitting cleanliness of a cons field list. -/
theorem noUndefFields_cons {k : String} {v : JSVal} {fs : List (String × JSVal)}
    (h : noUndefFields ((k, v) :: fs) = true) :
    noUndef v = true ∧ noUndefFields fs = true := by
  have h' : (noUndef v && noUndefFields fs) = true := h
  exact Bool.and_eq_true_iff.mp h'

mutual
/-- The parser recovers any `undefined`-free value from its printed form (with
any remainder that cannot extend a digit run), given fuel at least the value's
parse budget. -/
theorem parsePrint : ∀ (v : JSVal) (fuel : Nat) (rest : List Char),
    sizeJ v ≤ fuel → noUndef v = true → numStop rest = true →
    parseVal fuel (printJson v ++ rest) = some (v, rest)
  | .undef, _, _, _, hc, _ => by simp [noUndef] at hc
  | .null, fuel, rest, hs, _, _ => by
    cases fuel with
    | zero => simp [sizeJ] at hs
    | succ f =>
      simp only [printJson, List.cons_append, List.nil_append]
      rfl
  | .bool true, fuel, rest, hs, _, _ => by
    cases fuel with
    | zero => simp [sizeJ] at hs
    | succ f =>
      simp only [printJson, List.cons_append, List.nil_append]
      rfl
  | .bool false, fuel, rest, hs, _, _ => by
    cases fuel with
    | zero => simp [sizeJ] at hs
    | succ f =>
      simp only [printJson, List.cons_append, List.nil_append]
      rfl
  | .num n, fuel, rest, hs, _, hr => by
    cases fuel with
    | zero => simp [sizeJ] at hs
    | succ f =>
      by_cases hn : n < 0
      · have hprint : printJson (.num n) ++ rest = '-' :: (natChars n.natAbs ++ rest) := by
          simp [printJson, intChars, hn]
        rw [hprint, parseVal_minus,
            grabDigits_run (natChars n.natAbs) (natChars_digits _) rest hr,
            natChars_map_chDigit]
        obtain ⟨d, ds, hds⟩ : ∃ d ds, natDigits n.natAbs = d :: ds := by
          cases h : natDigits n.natAbs with
          | nil => exact absurd h (natDigits_ne_nil _)
          | cons d ds => exact ⟨d, ds, rfl⟩
        rw [hds]
        show some (JSVal.num (-(digitsVal 0 (d :: ds) : Int)), rest) = some (JSVal.num n, rest)
        rw [← hds, digitsVal_zero]
        have : -((n.natAbs : Nat) : Int) = n := by omega
        rw [this]
      · obtain ⟨c, t, hct, hc⟩ := natChars_cons n.natAbs
        have hprint : printJson (.num n) ++ rest = c :: (t ++ rest) := by
          simp [printJson, intChars, hn, hct]
        rw [hprint, parseVal_digit f c (t ++ rest) hc]
        have hg : grabDigits (c :: (t ++ rest)) = ((c :: t).map chDigit, rest) := by
          have := grabDigits_run (c :: t) (by rw [← hct]; exact natChars_digits _) rest hr
          simpa using this
        rw [hg]
        show some (JSVal.num (digitsVal 0 ((c :: t).map chDigit)), rest) = some (JSVal.num n, rest)
        rw [← hct, natChars_map_chDigit, digitsVal_zero]
        have : ((n.natAbs : Nat) : Int) = n := by omega
        rw [this]
  | .str s, fuel, rest, hs, _, _ => by
    cases fuel with
    | zero => simp [sizeJ] at hs
    | succ f =>
      simp only [printJson, List.cons_append]
      rw [parseVal_dq, scanStr_escBody]
  | .arr es, fuel, rest, hs, hc, _ => by
    cases fuel with
    | zero => simp only [sizeJ] at hs; omega
    | succ f =>
      have hse : sizeL es ≤ f := by simp only [sizeJ] at hs; omega
      simp only [printJson, List.cons_append]
      rw [parseVal_lbracket]
      exact parsePrintElems es f rest hse (by simpa [noUndef] using hc)
  | .obj fs, fuel, rest, hs, hc, _ => by
    cases fuel with
    | zero => simp only [sizeJ] at hs; omega
    | succ f =>
      have hsf : sizeF fs ≤ f := by simp only [sizeJ] at hs; omega
      simp only [printJson, List.cons_append]
      rw [parseVal_lbrace]
      exact parsePrintFields fs f rest hsf (by simpa [noUndef] using hc)
termination_by structural v => v

/-- Element-list version of `parsePrint`. -/
theorem parsePrintElems : ∀ (es : List JSVal) (fuel : Nat) (rest : List Char),
    sizeL es ≤ fuel → noUndefList es = true →
    parseElems fuel (printElems es ++ rest) = some (.arr es, rest)
  | [], fuel, rest, hs, _ => by
    cases fuel with
    | zero => simp [sizeL] at hs
    | succ f =>
      simp only [printElems, List.cons_append, List.nil_append]
      rfl
  | [e], fuel, rest, hs, hc => by
    cases fuel with
    | zero =>
      have := sizeJ_pos e
      simp only [sizeL] at hs
      omega
    | succ f =>
      have hse : sizeJ e ≤ f := by
        simp only [sizeL] at hs
        omega
      have hce : noUndef e = true := (noUndefList_cons hc).1
      obtain ⟨c, t, hct, hcbr, _, _, _⟩ := printJson_head e
      have hprint : printElems [e] ++ rest = c :: (t ++ (']' :: rest)) := by
        simp [printElems, hct]
      have hv : parseVal f (c :: (t ++ (']' :: rest))) = some (e, ']' :: rest) := by
        have hback : c :: (t ++ (']' :: rest)) = printJson e ++ (']' :: rest) := by
          simp [hct]
        rw [hback]
        exact parsePrint e f (']' :: rest) hse hce rfl
      rw [hprint]
      exact parseElems_single f c _ hcbr e rest hv
  | e :: f' :: fs', fuel, rest, hs, hc => by
    cases fuel with
    | zero =>
      have := sizeJ_pos e
      have := sizeL_pos (f' :: fs')
      simp only [sizeL] at hs
      omega
    | succ f =>
      have hse : sizeJ e ≤ f := by
        have h1 := sizeL_pos (f' :: fs')
        simp only [sizeL] at hs h1
        omega
      have hsl : sizeL (f' :: fs') ≤ f := by
        have h1 := sizeJ_pos e
        simp only [sizeL] at hs ⊢
        omega
      have hce : noUndef e = true := (noUndefList_cons hc).1
      have hcl : noUndefList (f' :: fs') = true := (noUndefList_cons hc).2
      obtain ⟨c, t, hct, hcbr, _, _, _⟩ := printJson_head e
      have hprint : printElems (e :: f' :: fs') ++ rest
          = c :: (t ++ (',' :: (printElems (f' :: fs') ++ rest))) := by
        simp [printElems, hct]
      have hv : parseVal f (c :: (t ++ (',' :: (printElems (f' :: fs') ++ rest))))
          = some (e, ',' :: (printElems (f' :: fs') ++ rest)) := by
        have hback : c :: (t ++ (',' :: (printElems (f' :: fs') ++ rest)))
            = printJson e ++ (',' :: (printElems (f' :: fs') ++ rest)) := by
          simp [hct]
        rw [hback]
        exact parsePrint e f (',' :: (printElems (f' :: fs') ++ rest)) hse hce rfl
      have he := parsePrintElems (f' :: fs') f rest hsl hcl
      rw [hprint]
      exact parseElems_cons f c _ hcbr e _ hv (f' :: fs') rest he
termination_by structural l => l

/-- Field-list version of `parsePrint`. -/
theorem parsePrintFields : ∀ (fs : List (String × JSVal)) (fuel : Nat) (rest : List Char),
    sizeF fs ≤ fuel → noUndefFields fs = true →
    parseFields fuel (printFields fs ++ rest) = some (.obj fs, rest)
  | [], fuel, rest, hs, _ => by
    cases fuel with
    | zero => simp [sizeF] at hs
    | succ f =>
      simp only [printFields, List.cons_append, List.nil_append]
      rfl
  | [(k, v)], fuel, rest, hs, hc => by
    cases fuel with
    | zero =>
      have := sizeJ_pos v
      simp only [sizeF] at hs
      omega
    | succ f =>
      have hsv : sizeJ v ≤ f := by
        simp only [sizeF] at hs
        omega
      have hcv : noUndef v = true := (noUndefFields_cons hc).1
      have hprint : printFields [(k, v)] ++ rest
          = dq :: (escBody k.data ++ (':' :: (printJson v ++ (cbr :: rest)))) := by
        simp [printFields]
      have hk := scanStr_escBody k.data (':' :: (printJson v ++ (cbr :: rest)))
      have hv := parsePrint v f (cbr :: rest) hsv hcv rfl
      rw [hprint]
      exact parseFields_single f _ k.data _ hk v rest hv
  | (k, v) :: g :: gs, fuel, rest, hs, hc => by
    cases fuel with
    | zero =>
      have := sizeJ_pos v
      have := sizeF_pos (g :: gs)
      simp only [sizeF] at hs
      omega
    | succ f =>
      have hsv : sizeJ v ≤ f := by
        have h1 := sizeF_pos (g :: gs)
        simp only [sizeF] at hs h1
        omega
      have hsg : sizeF (g :: gs) ≤ f := by
        have h1 := sizeJ_pos v
        simp only [sizeF] at hs ⊢
        omega
      have hcv : noUndef v = true := (noUndefFields_cons hc).1
      have hcg : noUndefFields (g :: gs) = true := (noUndefFields_cons hc).2
      have hprint : printFields ((k, v) :: g :: gs) ++ rest
          = dq :: (escBody k.data ++ (':' :: (printJson v ++ (',' :: (printFields (g :: gs) ++ rest))))) := by
        simp [printFields]
      have hk := scanStr_escBody k.data
        (':' :: (printJson v ++ (',' :: (printFields (g :: gs) ++ rest))))
      have hv := parsePrint v f (',' :: (printFields (g :: gs) ++ rest)) hsv hcv rfl
      have hg := parsePrintFields (g :: gs) f rest hsg hcg
      rw [hprint]
      exact parseFields_cons f _ k.data _ hk v _ hv (g :: gs) rest hg
termination_by structural l => l
end

/-- The platform codec round-trip: parsing a stringified `undefined`-free value
recovers it (structural identity). -/
theorem jsonParse_stringify (v : JSVal) (h : noUndef v = true) :
    jsonParse (jsonStringify v) = .ok v := by
  have hlen : sizeJ v ≤ (printJson v).length + 1 :=
    le_trans (sizeJ_le_len v) (by omega)
  have hp := parsePrint v ((printJson v).length + 1) [] hlen h rfl
  rw [List.append_nil] at hp
  unfold jsonParse jsonStringify
  simp [hp]

/-- The parser never produces a value containing `undefined`. -/
theorem parseVal_noUndef : ∀ (fuel : Nat) (cs : List Char) (v : JSVal) (r : List Char),
    (parseVal fuel cs = some (v, r) → noUndef v = true)
      ∧ (parseElems fuel cs = some (v, r) → noUndef v = true)
      ∧ (parseFields fuel cs = some (v, r) → noUndef v = true) := by
  intro fuel
  induction fuel with
  | zero =>
    intro cs v r
    refine ⟨?_, ?_, ?_⟩ <;> (intro h; simp [parseVal, parseElems, parseFields] at h)
  | succ f ih =>
    intro cs v r
    refine ⟨?_, ?_, ?_⟩ <;> intro h
    · rw [parseVal.eq_def] at h
      cases cs with
      | nil => simp at h
      | cons c cs' =>
        simp only at h
        repeat' split at h
        all_goals first
          | exact (ih _ v r).2.1 h
          | exact (ih _ v r).2.2 h
          | (simp only [Option.some.injEq, Prod.mk.injEq] at h
             obtain ⟨h1, h2⟩ := h
             subst h1
             rfl)
          | simp at h
    · rw [parseElems.eq_def] at h
      cases cs with
      | nil => simp at h
      | cons c cs' =>
        simp only at h
        repeat' split at h
        all_goals first
          | (simp only [Option.some.injEq, Prod.mk.injEq] at h
             obtain ⟨h1, h2⟩ := h
             subst h1
             first
               | rfl
               | (have hv0 := (ih _ _ _).1 (by assumption)
                  have hvs := (ih _ _ _).2.1 (by assumption)
                  simp only [noUndef, noUndefList] at hvs ⊢
                  simp [hv0, hvs])
               | (have hv0 := (ih _ _ _).1 (by assumption)
                  simp only [noUndef, noUndefList]
                  simp [hv0]))
          | simp at h
    · rw [parseFields.eq_def] at h
      cases cs with
      | nil => simp at h
      | cons c cs' =>
        simp only at h
        repeat' split at h
        all_goals first
          | (simp only [Option.some.injEq, Prod.mk.injEq] at h
             obtain ⟨h1, h2⟩ := h
             subst h1
             first
               | rfl
               | (have hv0 := (ih _ _ _).1 (by assumption)
                  have hfs := (ih _ _ _).2.2 (by assumption)
                  simp only [noUndef, noUndefFields] at hfs ⊢
                  simp [hv0, hfs])
               | (have hv0 := (ih _ _ _).1 (by assumption)
                  simp only [noUndef, noUndefFields]
                  simp [hv0]))
          | simp at h

/-- Whatever `JSON.parse` accepts is `undefined`-free. -/
theorem jsonParse_noUndef (s : String) (v : JSVal) (h : jsonParse s = .ok v) :
    noUndef v = true := by
  unfold jsonParse at h
  split at h
  · rename_i v0 heq
    simp only [Except.ok.injEq] at h
    subst h
    exact (parseVal_noUndef _ _ _ _).1 heq
  · simp at h

/-- Does a runtime value inhabit the logical column type? (`Text` is a string,
`Number` a number, `Boolean` a boolean; a `Json` value is any
`undefined`-free document.) -/
def matchesType (v : JSVal) : CType → Bool
  | .string => match v with | .str _ => true | _ => false
  | .number => match v with | .num _ => true | _ => false
  | .boolean => match v with | .bool _ => true | _ => false
  | .json => noUndef v

/-- The storage round-trip at one value: deserializing the serialized form of a
value of the column's logical type gives the value back. -/
theorem deserialize_serialize (v : JSVal) (ty : CType) (h : matchesType v ty = true) :
    SquirrelDB.deserializeValue (SquirrelDB.serializeValue v ty) ty = .ok v := by
  cases ty with
  | string =>
    cases v <;> simp [matchesType] at h
    simp [SquirrelDB.serializeValue, SquirrelDB.deserializeValue, isNullV]
  | number =>
    cases v <;> simp [matchesType] at h
    simp [SquirrelDB.serializeValue, SquirrelDB.deserializeValue, isNullV, SquirrelDB.jsNumber]
  | boolean =>
    cases v <;> simp [matchesType] at h
    rename_i b
    cases b <;>
      simp [SquirrelDB.serializeValue, SquirrelDB.deserializeValue, isNullV, truthy] <;>
      rfl
  | json =>
    have hc : noUndef v = true := h
    simp only [SquirrelDB.serializeValue, SquirrelDB.deserializeValue]
    rw [if_neg (by simp [isNullV])]
    show jsonParse (jsStringCoerce (.str (jsonStringify v))) = .ok v
    rw [show jsStringCoerce (.str (jsonStringify v)) = jsonStringify v from rfl]
    exact jsonParse_stringify v hc

/-! ### Claims -/

/-- A reusable nontrivial JSON document. -/
def tDoc : JSVal := .obj [("a", .arr [.num 1, .null, .str "x"]), ("b", .bool false)]

/-- C1: for every column type T in Text/Number/Boolean/Json and every value v
of logical type T, `fromStorage (toStorage v T) T = v` — exact equality for
text, number and boolean, structural equality for Json documents. -/
theorem spec_C1 (v : JSVal) :
    ((∃ s, v = JSVal.str s) →
      SquirrelDB.deserializeValue (SquirrelDB.serializeValue v .string) .string = .ok v)
    ∧ ((∃ n, v = JSVal.num n) →
      SquirrelDB.deserializeValue (SquirrelDB.serializeValue v .number) .number = .ok v)
    ∧ ((∃ b, v = JSVal.bool b) →
      SquirrelDB.deserializeValue (SquirrelDB.serializeValue v .boolean) .boolean = .ok v)
    ∧ (noUndef v = true →
      SquirrelDB.deserializeValue (SquirrelDB.serializeValue v .json) .json = .ok v) := by
  refine ⟨?_, ?_, ?_, ?_⟩
  · rintro ⟨s, rfl⟩
    exact deserialize_serialize _ .string rfl
  · rintro ⟨n, rfl⟩
    exact deserialize_serialize _ .number rfl
  · rintro ⟨b, rfl⟩
    exact deserialize_serialize _ .boolean rfl
  · intro h
    exact deserialize_serialize v .json h

/-- C1 witness: the round-trip evaluated at one concrete value per column type. -/
theorem spec_C1_witness :
    ((∃ s, JSVal.str "nut" = JSVal.str s)
      ∧ SquirrelDB.deserializeValue (SquirrelDB.serializeValue (JSVal.str "nut") .string) .string
          = .ok (JSVal.str "nut"))
    ∧ ((∃ n, JSVal.num (-7) = JSVal.num n)
      ∧ SquirrelDB.deserializeValue (SquirrelDB.serializeValue (JSVal.num (-7)) .number) .number
          = .ok (JSVal.num (-7)))
    ∧ ((∃ b, JSVal.bool true = JSVal.bool b)
      ∧ SquirrelDB.deserializeValue (SquirrelDB.serializeValue (JSVal.bool true) .boolean) .boolean
          = .ok (JSVal.bool true))
    ∧ (noUndef tDoc = true
      ∧ SquirrelDB.deserializeValue (SquirrelDB.serializeValue tDoc .json) .json = .ok tDoc) :=
  ⟨⟨⟨"nut", rfl⟩, (spec_C1 (JSVal.str "nut")).1 ⟨"nut", rfl⟩⟩,
   ⟨⟨-7, rfl⟩, (spec_C1 (JSVal.num (-7))).2.1 ⟨-7, rfl⟩⟩,
   ⟨⟨true, rfl⟩, (spec_C1 (JSVal.bool true)).2.2.1 ⟨true, rfl⟩⟩,
   ⟨rfl, (spec_C1 tDoc).2.2.2 rfl⟩⟩

/-- A state whose `doc` column stores text that is not valid JSON. -/
def c6State : DBState :=
  ⟨[("t", ⟨[("id", CType.string), ("doc", CType.json)]⟩)],
   [("t", ⟨["id", "doc"], [(.str "x", [("id", .str "x"), ("doc", .str "squirrel")])]⟩)]⟩

/-- C6 (the code as written): deserializing stored text that is not valid JSON
under the `json` column type — as `get` does — raises the *native*
`SyntaxError` of `JSON.parse`, which carries no `kind`; it is **not** an error
of kind `ParseException` (the source declares `ErrorKind.ParseException` but
never raises it: `JSON.parse` is called without any `try`/`catch`). -/
theorem spec_C6 :
    SquirrelDB.deserializeValue (.str "squirrel") .json
      = .error (.native "SyntaxError" "Unexpected token in JSON")
    ∧ (∀ m, SquirrelDB.deserializeValue (.str "squirrel") .json
        ≠ .error (.kinded .ParseException m))
    ∧ SquirrelDB.get c6State "t" "x"
      = .error (.native "SyntaxError" "Unexpected token in JSON")
    ∧ (∀ m, SquirrelDB.get c6State "t" "x" ≠ .error (.kinded .ParseException m)) := by
  refine ⟨rfl, ?_, rfl, ?_⟩
  · intro m h
    rw [show SquirrelDB.deserializeValue (.str "squirrel") .json
        = .error (.native "SyntaxError" "Unexpected token in JSON") from rfl] at h
    simp at h
  · intro m h
    rw [show SquirrelDB.get c6State "t" "x"
        = .error (.native "SyntaxError" "Unexpected token in JSON") from rfl] at h
    simp at h

/-- Looking up the key just set finds the new value. -/
theorem assocSet_lookup_self {α : Type} (l : List (String × α)) (k : String) (v : α) :
    (assocSet l k v).lookup k = some v := by
  induction l with
  | nil => simp [assocSet, List.lookup_cons]
  | cons p rest ih =>
    obtain ⟨k', v'⟩ := p
    by_cases h : k' = k
    · subst h
      simp [assocSet, List.lookup_cons]
    · simp only [assocSet, if_neg h]
      simp [List.lookup_cons, beq_false_of_ne (fun e => h e.symm), ih]

/-- Setting one key leaves every other key's lookup unchanged. -/
theorem assocSet_lookup_ne {α : Type} (l : List (String × α)) (k k' : String) (v : α)
    (h : k' ≠ k) : (assocSet l k v).lookup k' = l.lookup k' := by
  induction l with
  | nil => simp [assocSet, List.lookup_cons, beq_false_of_ne h]
  | cons p rest ih =>
    obtain ⟨a, b⟩ := p
    by_cases ha : a = k
    · subst ha
      simp [assocSet, List.lookup_cons, beq_false_of_ne h]
    · simp only [assocSet, if_neg ha]
      by_cases hk : k' = a
      · subst hk
        simp [List.lookup_cons]
      · simp [List.lookup_cons, beq_false_of_ne hk, ih]

/-- The empty database: no schemas, no physical tables. -/
def emptyDB : DBState := ⟨[], []⟩

/-- C7 counterexample: `initTable` succeeds with a caller-supplied `id` column
of type *number*; the stored schema's `id` column then does not have type
`Text`, contradicting the claim's "that column has type Text". -/
theorem spec_C7_cex :
    SquirrelDB.initTable emptyDB "t" ⟨[("id", CType.number)]⟩
      = .ok ⟨[("t", ⟨[("id", CType.number)]⟩)], [("t", ⟨["id"], []⟩)]⟩
    ∧ ([("id", CType.number)] : List ColumnDefinition).lookup "id" = some CType.number := by
  exact ⟨rfl, rfl⟩

/-- C7 amended: the stored schema is the caller's column list with an
`('id', Text)` column prepended at index 0 exactly when the caller supplied no
column *named* `id`; a caller-supplied `id` column is kept at its original
position **with its original type** (which need not be `Text`), and duplicate
`id` columns are not rejected. -/
theorem spec_C7 (st : DBState) (name : String) (sc : TableSchema) (st' : DBState)
    (h : SquirrelDB.initTable st name sc = .ok st') :
    st'.schemas.lookup name =
      some ⟨if sc.columns.any (fun cd => cd.fst == "id") then sc.columns
            else ("id", CType.string) :: sc.columns⟩ := by
  simp only [SquirrelDB.initTable, SquirrelDB.createTableIfNotExists] at h
  split at h
  · simp at h
  · rename_i st1 heq
    simp only [Except.ok.injEq] at h
    subst h
    split
    · rename_i hany
      simp only [if_pos hany] at heq ⊢
      exact assocSet_lookup_self _ _ _
    · rename_i hany
      simp only [if_neg hany] at heq ⊢
      exact assocSet_lookup_self _ _ _

/-- C7 witness: registering a schema without `id` prepends `('id', Text)`. -/
theorem spec_C7_witness :
    (⟨[("u", ⟨[("id", CType.string), ("n", CType.number)]⟩)],
      [("u", ⟨["id", "n"], []⟩)]⟩ : DBState).schemas.lookup "u"
      = some ⟨[("id", CType.string), ("n", CType.number)]⟩ :=
  spec_C7 emptyDB "u" ⟨[("n", CType.number)]⟩ _ rfl

/-- C8 counterexample: `initTable` with an *empty* columns array does not fail
with `InvalidType` — it succeeds and registers the table with the implicitly
prepended `id` column as its only column (the source only checks
`Array.isArray(schema.columns)`, which an empty array passes). -/
theorem spec_C8_cex :
    SquirrelDB.initTable emptyDB "t" ⟨[]⟩
      = .ok ⟨[("t", ⟨[("id", CType.string)]⟩)], [("t", ⟨["id"], []⟩)]⟩ := rfl

/-- C8 amended: `initTable`'s own validation accepts every string name and
every columns array. An empty *name* passes the `typeof` check and fails only
inside the storage engine — with a *native* engine error, not `InvalidType` —
registering nothing; an empty *columns array* passes `Array.isArray` and the
call succeeds, registering the schema `[('id', Text)]`. -/
theorem spec_C8 :
    (∀ st sc, SquirrelDB.initTable st "" sc
        = .error (.native "SQLiteError" "syntax error in CREATE TABLE"))
    ∧ (∀ st t, t ≠ "" → ∃ st', SquirrelDB.initTable st t ⟨[]⟩ = .ok st'
        ∧ st'.schemas.lookup t = some ⟨[("id", CType.string)]⟩) := by
  constructor
  · intro st sc
    rfl
  · intro st t ht
    cases hp : st.phys.lookup t with
    | some tbl =>
      refine ⟨{ st with schemas := assocSet st.schemas t ⟨[("id", CType.string)]⟩ }, ?_, ?_⟩
      · simp only [SquirrelDB.initTable, SquirrelDB.createTableIfNotExists, sqlCreateTable]
        simp [ht, hp]
      · exact assocSet_lookup_self _ _ _
    | none =>
      refine ⟨⟨assocSet st.schemas t ⟨[("id", CType.string)]⟩,
               assocSet st.phys t ⟨["id"], []⟩⟩, ?_, ?_⟩
      · simp only [SquirrelDB.initTable, SquirrelDB.createTableIfNotExists, sqlCreateTable]
        simp [ht, hp]
      · exact assocSet_lookup_self _ _ _

/-- C8 witness: both amended behaviours at concrete inputs. -/
theorem spec_C8_witness :
    SquirrelDB.initTable emptyDB "" ⟨[("a", CType.string)]⟩
      = .error (.native "SQLiteError" "syntax error in CREATE TABLE")
    ∧ ∃ st', SquirrelDB.initTable emptyDB "t2" ⟨[]⟩ = .ok st'
        ∧ st'.schemas.lookup "t2" = some ⟨[("id", CType.string)]⟩ :=
  ⟨spec_C8.1 emptyDB ⟨[("a", CType.string)]⟩,
   spec_C8.2 emptyDB "t2" (by decide)⟩

/-- C10: `delete` and `deleteAll` never consult the schema registry — any
failure they can produce (for any table name, registered or not) is a *native*
storage-engine error, never the wrapper's kinded `InvalidType` error — while
`get`, `all` and `startsWith` raise exactly the kinded `InvalidType`
unregistered-table error whenever the name has no registered schema. -/
theorem spec_C10 :
    (∀ st t i e, SquirrelDB.delete st t i = .error e → ∃ m, e = .native "SQLiteError" m)
    ∧ (∀ st t e, SquirrelDB.deleteAll st t = .error e → ∃ m, e = .native "SQLiteError" m)
    ∧ (∀ st t i, st.schemas.lookup t = none →
        SquirrelDB.get st t i
          = .error (createError ("Table " ++ t ++ " does not exist or has no schema defined") .InvalidType)
        ∧ SquirrelDB.all st t
          = .error (createError ("Table " ++ t ++ " does not exist or has no schema defined") .InvalidType)
        ∧ SquirrelDB.startsWith st t i
          = .error (createError ("Table " ++ t ++ " does not exist or has no schema defined") .InvalidType)) := by
  refine ⟨?_, ?_, ?_⟩
  · intro st t i e h
    simp only [SquirrelDB.delete, sqlDelete] at h
    cases hp : st.phys.lookup t with
    | none =>
      rw [hp] at h
      simp only [Except.error.injEq] at h
      exact ⟨_, h.symm⟩
    | some tbl =>
      rw [hp] at h
      simp at h
  · intro st t e h
    simp only [SquirrelDB.deleteAll, sqlDeleteAll] at h
    cases hp : st.phys.lookup t with
    | none =>
      rw [hp] at h
      simp only [Except.error.injEq] at h
      exact ⟨_, h.symm⟩
    | some tbl =>
      rw [hp] at h
      simp at h
  · intro st t i h
    refine ⟨?_, ?_, ?_⟩
    · simp [SquirrelDB.get, h]
    · simp [SquirrelDB.all, h]
    · simp [SquirrelDB.startsWith, h]

/-- C10 witness: on the empty database, `delete` of an unknown table fails
natively while `get` fails with the kinded `InvalidType` error. -/
theorem spec_C10_witness :
    (∃ m, (Err.native "SQLiteError" "no such table: zz") = .native "SQLiteError" m)
    ∧ SquirrelDB.get emptyDB "zz" "a"
        = .error (createError ("Table " ++ "zz" ++ " does not exist or has no schema defined") .InvalidType) :=
  ⟨spec_C10.1 emptyDB "zz" "a" _ rfl, (spec_C10.2.2 emptyDB "zz" "a" rfl).1⟩

/-- The column-check loop can only fail with a kinded `InvalidType` error, and
it does fail when some declared `number` column holds a present, non-`null`
value that is not a number. -/
theorem checkColumns_invalid (cols : List ColumnDefinition) (r : RowData) (c : String) (v : JSVal)
    (hmem : (c, CType.number) ∈ cols) (hv : r.lookup c = some v) (hnull : isNullV v = false)
    (hnum : ∀ n, v ≠ JSVal.num n) :
    ∃ m, SquirrelDB.checkColumns cols r = .error (.kinded .InvalidType m) := by
  induction cols with
  | nil => cases hmem
  | cons cd rest ih =>
    obtain ⟨cn, ct⟩ := cd
    rcases List.mem_cons.mp hmem with heq | hmem'
    · injection heq with h1 h2
      subst h1
      subst h2
      have ht : ¬jsTypeof v = "number" := by
        cases v with
        | num n => exact absurd rfl (hnum n)
        | undef => simp [jsTypeof]
        | null => simp [isNullV] at hnull
        | bool b => simp [jsTypeof]
        | str s => simp [jsTypeof]
        | arr es => simp [jsTypeof]
        | obj fs => simp [jsTypeof]
      simp only [SquirrelDB.checkColumns, hv, hnull, Bool.false_eq_true, if_false]
      rw [if_neg ht]
      exact ⟨_, rfl⟩
    · cases hl : r.lookup cn with
      | none =>
        simp only [SquirrelDB.checkColumns, hl]
        exact ih hmem'
      | some w =>
        simp only [SquirrelDB.checkColumns, hl]
        by_cases hnw : isNullV w = true
        · rw [if_pos hnw]
          exact ih hmem'
        · rw [if_neg hnw]
          cases ct with
          | string =>
            by_cases hty : jsTypeof w = "string"
            · rw [if_pos hty]
              exact ih hmem'
            · rw [if_neg hty]
              exact ⟨_, rfl⟩
          | number =>
            by_cases hty : jsTypeof w = "number"
            · rw [if_pos hty]
              exact ih hmem'
            · rw [if_neg hty]
              exact ⟨_, rfl⟩
          | boolean =>
            by_cases hty : jsTypeof w = "boolean"
            · rw [if_pos hty]
              exact ih hmem'
            · rw [if_neg hty]
              exact ⟨_, rfl⟩
          | json => exact ih hmem'

/-- C5: on a registered table, `add` of a record whose `id` is missing-or-falsy
fails with `MissingValue`, and `add` of a record holding a present non-`null`
non-number value in a declared `Number` column fails with `InvalidType`. In
this pure embedding a failing `add` returns only the error — the state passed
in is untouched — mirroring that `validateRowData` runs before the `INSERT`
statement, so validation failures abort with no storage mutation. -/
theorem spec_C5 (st : DBState) (t : String) (S : TableSchema) (r : RowData)
    (hreg : st.schemas.lookup t = some S) :
    (truthy (jsGet r "id") = false →
      SquirrelDB.add st t r
        = .error (createError "Field 'id' is required for all operations" .MissingValue))
    ∧ (∀ c v, truthy (jsGet r "id") = true → (c, CType.number) ∈ S.columns →
        r.lookup c = some v → isNullV v = false → (∀ n, v ≠ JSVal.num n) →
        ∃ m, SquirrelDB.add st t r = .error (.kinded .InvalidType m)) := by
  constructor
  · intro h
    simp only [SquirrelDB.add, SquirrelDB.validateRowData, hreg, h]
    rfl
  · intro c v hid hmem hv hnull hnum
    obtain ⟨m, hm⟩ := checkColumns_invalid S.columns r c v hmem hv hnull hnum
    refine ⟨m, ?_⟩
    simp only [SquirrelDB.add, SquirrelDB.validateRowData, hreg, hid, Bool.not_true,
      Bool.false_eq_true, if_false, hm]

/-- A concrete registered table for witnesses: `id : Text`, `age : Number`. -/
def wState : DBState :=
  ⟨[("t", ⟨[("id", CType.string), ("age", CType.number)]⟩)],
   [("t", ⟨["id", "age"], []⟩)]⟩

/-- C5 witness: both failure modes at concrete inputs. -/
theorem spec_C5_witness :
    SquirrelDB.add wState "t" [("name", .str "x")]
      = .error (createError "Field 'id' is required for all operations" .MissingValue)
    ∧ ∃ m, SquirrelDB.add wState "t" [("id", .str "x"), ("age", .str "old")]
        = .error (.kinded .InvalidType m) :=
  ⟨(spec_C5 wState "t" _ [("name", .str "x")] rfl).1 rfl,
   (spec_C5 wState "t" _ [("id", .str "x"), ("age", .str "old")] rfl).2 "age" (.str "old")
     rfl (by simp) rfl rfl (fun n h => JSVal.noConfusion h)⟩

/-- A registered table whose `c` column (type `json`) holds stored text
`"false"`, deserializing to the boolean `false`. -/
def c4State : DBState :=
  ⟨[("t", ⟨[("id", CType.string), ("c", CType.json)]⟩)],
   [("t", ⟨["id", "c"], [(.str "y", [("id", .str "y"), ("c", .str "false")])]⟩)]⟩

/-- C4 counterexample: the record exists and field `c` is present with the
non-number value `false`, yet `increment` does **not** fail with
`InvalidType` — `record[column] || 0` coerces every *falsy* current value
(here `false`) to `0`, so the call succeeds and returns the delta. -/
theorem spec_C4_cex :
    (∃ rec, SquirrelDB.get c4State "t" "y" = .ok (some rec)
      ∧ rec.lookup "c" = some (JSVal.bool false)
      ∧ (∀ n, JSVal.bool false ≠ JSVal.num n))
    ∧ ∃ st', SquirrelDB.increment c4State "t" "y" "c" 5 = .ok (st', 5) := by
  refine ⟨⟨[("id", .str "y"), ("c", .bool false)], rfl, rfl,
    fun n h => JSVal.noConfusion h⟩, ?_⟩
  exact ⟨_, rfl⟩

/-- C4 amended: on a registered table, `increment(t, s, c, d)` fails with
`MissingValue` when `get` finds no record with id `s`. Otherwise, with `rec`
the freshly read record: a *falsy* current value of field `c` (absent
(`undefined`), `null`, `false`, `0`, or the empty string) is treated as `0`,
and the call writes `rec` back through `add` with `c` set to `d`, returning
`d` (the write-back may itself fail `add`'s validation); a current value that
is a number `n` is written back as `n + d` and `n + d` is returned; only a
*truthy* non-number current value fails with `InvalidType`. -/
theorem spec_C4 (st : DBState) (t s c : String) (d : Int) :
    (SquirrelDB.get st t s = .ok none →
      SquirrelDB.increment st t s c d
        = .error (createError ("Record with id '" ++ s ++ "' not found in table '" ++ t ++ "'") .MissingValue))
    ∧ (∀ rec, SquirrelDB.get st t s = .ok (some rec) →
        (truthy (jsGet rec c) = false →
          SquirrelDB.increment st t s c d
            = (SquirrelDB.add st t (jsSet rec c (.num d))).map (fun p => (p.fst, d)))
        ∧ (∀ n, jsGet rec c = JSVal.num n →
          SquirrelDB.increment st t s c d
            = (SquirrelDB.add st t (jsSet rec c (.num (n + d)))).map (fun p => (p.fst, n + d)))
        ∧ (truthy (jsGet rec c) = true → (∀ n, jsGet rec c ≠ JSVal.num n) →
          SquirrelDB.increment st t s c d
            = .error (createError ("Column '" ++ c ++ "' is not a number") .InvalidType))) := by
  refine ⟨?_, ?_⟩
  · intro h
    simp only [SquirrelDB.increment, h]
  · intro rec hget
    refine ⟨?_, ?_, ?_⟩
    · intro hf
      simp only [SquirrelDB.increment, hget, hf, Bool.false_eq_true, if_false]
      rw [show (0 : Int) + d = d from by omega]
      cases h2 : SquirrelDB.add st t (jsSet rec c (.num d)) with
      | error e => simp [h2, Except.map]
      | ok p =>
        obtain ⟨st', r'⟩ := p
        simp [h2, Except.map]
    · intro n hn
      simp only [SquirrelDB.increment, hget, hn]
      have hcur : (if truthy (JSVal.num n) = true then JSVal.num n else JSVal.num 0)
          = JSVal.num n := by
        by_cases h0 : n = 0
        · subst h0
          simp
        · rw [if_pos (by simp [truthy, h0])]
      rw [hcur]
      cases h2 : SquirrelDB.add st t (jsSet rec c (.num (n + d))) with
      | error e => simp [h2, Except.map]
      | ok p =>
        obtain ⟨st', r'⟩ := p
        simp [h2, Except.map]
    · intro ht hnn
      simp only [SquirrelDB.increment, hget]
      cases hv : jsGet rec c with
      | num n => exact absurd hv (hnn n)
      | undef =>
        rw [hv] at ht
        simp [truthy] at ht
      | null =>
        rw [hv] at ht
        simp [truthy] at ht
      | bool b =>
        rw [hv] at ht
        have hb : b = true := by simpa [truthy] using ht
        subst hb
        simp [truthy]
      | str s' =>
        rw [hv] at ht
        rw [if_pos ht]
      | arr es => simp [truthy]
      | obj fs => simp [truthy]

/-- C4 witness: `increment` on a missing id fails with `MissingValue`. -/
theorem spec_C4_witness :
    SquirrelDB.increment wState "t" "zz" "age" 3
      = .error (createError ("Record with id '" ++ "zz" ++ "' not found in table '" ++ "t" ++ "'") .MissingValue) :=
  (spec_C4 wState "t" "zz" "age" 3).1 rfl

/-- `add` always returns its input record. -/
theorem add_snd (st : DBState) (t : String) (r : RowData) (p : DBState × RowData)
    (h : SquirrelDB.add st t r = .ok p) : p.snd = r := by
  simp only [SquirrelDB.add] at h
  split at h
  · simp at h
  · split at h
    · simp at h
    · split at h
      · simp at h
      · simp only [Except.ok.injEq] at h
        subst h
        rfl

/-- The `initTable` mirror loop replays the same arguments to each mirror in
order. -/
theorem initTableMirrors_forall (ms : List Instance) (t : String) (sc : TableSchema)
    (ms' : List Instance) (h : initTableMirrors ms t sc = .ok ms') :
    List.Forall₂ (fun m m' => Instance.initTable m t sc = .ok m') ms ms' := by
  induction ms generalizing ms' with
  | nil =>
    simp only [initTableMirrors, Except.ok.injEq] at h
    subst h
    exact List.Forall₂.nil
  | cons m rest ih =>
    simp only [initTableMirrors] at h
    cases h1 : Instance.initTable m t sc with
    | error e => rw [h1] at h; simp at h
    | ok m' =>
      rw [h1] at h
      cases h2 : initTableMirrors rest t sc with
      | error e => rw [h2] at h; simp at h
      | ok rest' =>
        rw [h2] at h
        simp only [Except.ok.injEq] at h
        subst h
        exact List.Forall₂.cons h1 (ih _ h2)

/-- The `add` mirror loop replays the same arguments to each mirror in order. -/
theorem addMirrors_forall (ms : List Instance) (t : String) (r : RowData)
    (ms' : List Instance) (h : addMirrors ms t r = .ok ms') :
    List.Forall₂ (fun m m' => Instance.add m t r = .ok m') ms ms' := by
  induction ms generalizing ms' with
  | nil =>
    simp only [addMirrors, Except.ok.injEq] at h
    subst h
    exact List.Forall₂.nil
  | cons m rest ih =>
    simp only [addMirrors] at h
    cases h1 : Instance.add m t r with
    | error e => rw [h1] at h; simp at h
    | ok m' =>
      rw [h1] at h
      cases h2 : addMirrors rest t r with
      | error e => rw [h2] at h; simp at h
      | ok rest' =>
        rw [h2] at h
        simp only [Except.ok.injEq] at h
        subst h
        exact List.Forall₂.cons h1 (ih _ h2)

/-- The `delete` mirror loop replays the same arguments to each mirror in
order (each mirror's own removed-count is discarded). -/
theorem deleteMirrors_forall (ms : List Instance) (t s : String)
    (ms' : List Instance) (h : deleteMirrors ms t s = .ok ms') :
    List.Forall₂ (fun m m' => ∃ k, Instance.delete m t s = .ok (m', k)) ms ms' := by
  induction ms generalizing ms' with
  | nil =>
    simp only [deleteMirrors, Except.ok.injEq] at h
    subst h
    exact List.Forall₂.nil
  | cons m rest ih =>
    simp only [deleteMirrors] at h
    cases h1 : Instance.delete m t s with
    | error e => rw [h1] at h; simp at h
    | ok p =>
      obtain ⟨m', k⟩ := p
      rw [h1] at h
      cases h2 : deleteMirrors rest t s with
      | error e => rw [h2] at h; simp at h
      | ok rest' =>
        rw [h2] at h
        simp only [Except.ok.injEq] at h
        subst h
        exact List.Forall₂.cons ⟨k, h1⟩ (ih _ h2)

/-- The `deleteAll` mirror loop replays the same arguments to each mirror in
order. -/
theorem deleteAllMirrors_forall (ms : List Instance) (t : String)
    (ms' : List Instance) (h : deleteAllMirrors ms t = .ok ms') :
    List.Forall₂ (fun m m' => ∃ k, Instance.deleteAll m t = .ok (m', k)) ms ms' := by
  induction ms generalizing ms' with
  | nil =>
    simp only [deleteAllMirrors, Except.ok.injEq] at h
    subst h
    exact List.Forall₂.nil
  | cons m rest ih =>
    simp only [deleteAllMirrors] at h
    cases h1 : Instance.deleteAll m t with
    | error e => rw [h1] at h; simp at h
    | ok p =>
      obtain ⟨m', k⟩ := p
      rw [h1] at h
      cases h2 : deleteAllMirrors rest t with
      | error e => rw [h2] at h; simp at h
      | ok rest' =>
        rw [h2] at h
        simp only [Except.ok.injEq] at h
        subst h
        exact List.Forall₂.cons ⟨k, h1⟩ (ih _ h2)

/-- C3: each mutating operation (`initTable`, `add`, `delete`, `deleteAll`)
succeeds on an instance exactly by first succeeding locally and then being
replayed, with the same arguments, against every attached mirror in attachment
order (`Forall₂` over the mirror list pairs the old and new mirror states in
order; the sequential awaiting is the fold the loop lemmas invert, and the
recursion into a mirror's own mirrors is `Instance.add` itself on each
mirror). The read-only operations `get`, `all`, `has` and `startsWith` are
functions of the local state alone — no mirror is consulted or written. -/
theorem spec_C3 :
    (∀ i t sc i', Instance.initTable i t sc = .ok i' →
      SquirrelDB.initTable i.state t sc = .ok i'.state
      ∧ List.Forall₂ (fun m m' => Instance.initTable m t sc = .ok m') i.mirrors i'.mirrors)
    ∧ (∀ i t r i', Instance.add i t r = .ok i' →
      SquirrelDB.add i.state t r = .ok (i'.state, r)
      ∧ List.Forall₂ (fun m m' => Instance.add m t r = .ok m') i.mirrors i'.mirrors)
    ∧ (∀ i t s i' n, Instance.delete i t s = .ok (i', n) →
      SquirrelDB.delete i.state t s = .ok (i'.state, n)
      ∧ List.Forall₂ (fun m m' => ∃ k, Instance.delete m t s = .ok (m', k)) i.mirrors i'.mirrors)
    ∧ (∀ i t i' n, Instance.deleteAll i t = .ok (i', n) →
      SquirrelDB.deleteAll i.state t = .ok (i'.state, n)
      ∧ List.Forall₂ (fun m m' => ∃ k, Instance.deleteAll m t = .ok (m', k)) i.mirrors i'.mirrors)
    ∧ (∀ i t s, Instance.get i t s = SquirrelDB.get i.state t s)
    ∧ (∀ i t, Instance.all i t = SquirrelDB.all i.state t)
    ∧ (∀ i t s, Instance.has i t s = SquirrelDB.has i.state t s)
    ∧ (∀ i t q, Instance.startsWith i t q = SquirrelDB.startsWith i.state t q) := by
  refine ⟨?_, ?_, ?_, ?_, fun i t s => rfl, fun i t => rfl, fun i t s => rfl, fun i t q => rfl⟩
  · intro i t sc i' h
    obtain ⟨st, ms⟩ := i
    simp only [Instance.initTable] at h
    cases h1 : SquirrelDB.initTable st t sc with
    | error e => rw [h1] at h; simp at h
    | ok st' =>
      rw [h1] at h
      cases h2 : initTableMirrors ms t sc with
      | error e => rw [h2] at h; simp at h
      | ok ms' =>
        rw [h2] at h
        simp only [Except.ok.injEq] at h
        subst h
        exact ⟨h1, initTableMirrors_forall ms t sc ms' h2⟩
  · intro i t r i' h
    obtain ⟨st, ms⟩ := i
    simp only [Instance.add] at h
    cases h1 : SquirrelDB.add st t r with
    | error e => rw [h1] at h; simp at h
    | ok p =>
      obtain ⟨st', r'⟩ := p
      have hr : r' = r := add_snd st t r (st', r') h1
      rw [hr] at h1
      rw [h1] at h
      cases h2 : addMirrors ms t r with
      | error e => rw [h2] at h; simp at h
      | ok ms' =>
        rw [h2] at h
        simp only [Except.ok.injEq] at h
        subst h
        exact ⟨h1, addMirrors_forall ms t r ms' h2⟩
  · intro i t s i' n h
    obtain ⟨st, ms⟩ := i
    simp only [Instance.delete] at h
    cases h1 : SquirrelDB.delete st t s with
    | error e => rw [h1] at h; simp at h
    | ok p =>
      obtain ⟨st', k⟩ := p
      rw [h1] at h
      cases h2 : deleteMirrors ms t s with
      | error e => rw [h2] at h; simp at h
      | ok ms' =>
        rw [h2] at h
        simp only [Except.ok.injEq, Prod.mk.injEq] at h
        obtain ⟨hi, hn⟩ := h
        subst hi
        subst hn
        exact ⟨h1, deleteMirrors_forall ms t s ms' h2⟩
  · intro i t i' n h
    obtain ⟨st, ms⟩ := i
    simp only [Instance.deleteAll] at h
    cases h1 : SquirrelDB.deleteAll st t with
    | error e => rw [h1] at h; simp at h
    | ok p =>
      obtain ⟨st', k⟩ := p
      rw [h1] at h
      cases h2 : deleteAllMirrors ms t with
      | error e => rw [h2] at h; simp at h
      | ok ms' =>
        rw [h2] at h
        simp only [Except.ok.injEq, Prod.mk.injEq] at h
        obtain ⟨hi, hn⟩ := h
        subst hi
        subst hn
        exact ⟨h1, deleteAllMirrors_forall ms t ms' h2⟩

/-- A primary instance over `wState` with one attached mirror over the same
state. -/
def wInst : Instance := .mk wState [.mk wState []]

/-- A concrete record for the replication witness. -/
def wRow : RowData := [("id", .str "w"), ("age", .num 1)]

/-- The instance after `add` on the primary (computed by the operation
itself). -/
def wInstAfter : Instance :=
  match Instance.add wInst "t" wRow with
  | .ok i => i
  | .error _ => wInst

/-- C3 witness: a concrete `add` on a mirrored primary succeeds locally and is
replayed, with the same arguments, onto the attached mirror. -/
theorem spec_C3_witness :
    SquirrelDB.add wInst.state "t" wRow = .ok (wInstAfter.state, wRow)
    ∧ List.Forall₂ (fun m m' => Instance.add m "t" wRow = .ok m')
        wInst.mirrors wInstAfter.mirrors :=
  spec_C3.2.1 wInst "t" wRow wInstAfter rfl

/-! ### Well-formed states and valid records -/

/-- No duplicate keys in a key list. -/
def nodupKeys : List String → Bool
  | [] => true
  | x :: xs => !(xs.contains x) && nodupKeys xs

/-- Well-formedness of one registered schema: distinct column names, an
`id : Text` column, and a physical table containing every schema column. The
reachable states of an instance whose tables were registered once (no
re-registration drift, no caller-supplied exotic `id` columns) satisfy it. -/
def schemaWF (st : DBState) (t : String) (S : TableSchema) : Bool :=
  nodupKeys (S.columns.map Prod.fst)
  && (S.columns.lookup "id" == some CType.string)
  && (match st.phys.lookup t with
      | some pt => (S.columns.map Prod.fst).all (fun c => pt.cols.contains c)
      | none => false)

/-- Well-formedness of a database state: every registered schema is
well-formed. -/
def WFState (st : DBState) : Bool :=
  st.schemas.all (fun p => schemaWF st p.fst p.snd)

/-- A record valid for a schema in the spec's sense: a truthy `id`, and every
column present with a value other than `undefined` holds a value of the
column's logical type (`matchesType`; for `Json`, any `undefined`-free
document, `null` included). -/
def ValidRecord (S : TableSchema) (r : RowData) : Bool :=
  truthy (jsGet r "id") && S.columns.all (fun cd =>
    match r.lookup cd.fst with
    | none => true
    | some v => isUndefV v || matchesType v cd.snd)

/-- A successful lookup pinpoints a member. -/
theorem lookup_mem {α : Type} {l : List (String × α)} {k : String} {v : α}
    (h : l.lookup k = some v) : (k, v) ∈ l := by
  induction l with
  | nil => simp [List.lookup] at h
  | cons p rest ih =>
    obtain ⟨a, b⟩ := p
    rw [List.lookup_cons] at h
    by_cases hk : k = a
    · subst hk
      simp at h
      subst h
      exact List.mem_cons_self _ _
    · rw [beq_false_of_ne hk] at h
      exact List.mem_cons_of_mem _ (ih h)

/-- A successful lookup's key occurs among the keys. -/
theorem lookup_mem_fst {α : Type} {l : List (String × α)} {k : String} {v : α}
    (h : l.lookup k = some v) : k ∈ l.map Prod.fst := by
  have := lookup_mem h
  exact List.mem_map.mpr ⟨(k, v), this, rfl⟩

/-- A key absent from the key list cannot be looked up. -/
theorem lookup_none_of_not_mem {α : Type} {l : List (String × α)} {k : String}
    (h : k ∉ l.map Prod.fst) : l.lookup k = none := by
  cases hl : l.lookup k with
  | none => rfl
  | some v => exact absurd (lookup_mem_fst hl) h

/-- With distinct keys, membership determines the lookup. -/
theorem mem_lookup_nodup {α : Type} {l : List (String × α)} {k : String} {v : α}
    (hnd : nodupKeys (l.map Prod.fst) = true) (hmem : (k, v) ∈ l) :
    l.lookup k = some v := by
  induction l with
  | nil => cases hmem
  | cons p rest ih =>
    obtain ⟨a, b⟩ := p
    simp only [List.map_cons, nodupKeys, Bool.and_eq_true, Bool.not_eq_true'] at hnd
    obtain ⟨hna, hnrest⟩ := hnd
    rcases List.mem_cons.mp hmem with heq | hmem'
    · injection heq with h1 h2
      subst h1
      subst h2
      simp [List.lookup_cons]
    · have hka : k ≠ a := by
        intro hk
        subst hk
        have hm : k ∈ rest.map Prod.fst := List.mem_map.mpr ⟨(k, v), hmem', rfl⟩
        have hc : (rest.map Prod.fst).contains k = true := by
          simpa [List.contains] using List.elem_eq_true_of_mem hm
        rw [hc] at hna
        cases hna
      rw [List.lookup_cons, beq_false_of_ne hka]
      exact ih hnrest hmem'

/-- Unfolding of `insertItems` over a leading column. -/
theorem insertItems_cons (cn : String) (ct : CType) (rest : List ColumnDefinition) (r : RowData) :
    SquirrelDB.insertItems ((cn, ct) :: rest) r
      = match r.lookup cn with
        | none => SquirrelDB.insertItems rest r
        | some v =>
          if isUndefV v then SquirrelDB.insertItems rest r
          else (cn, SquirrelDB.serializeValue v ct) :: SquirrelDB.insertItems rest r := by
  simp only [SquirrelDB.insertItems, List.filterMap_cons]
  cases r.lookup cn with
  | none => rfl
  | some v =>
    cases hu : isUndefV v <;> simp [hu]

/-- Every key of the serialized item list is a schema column name. -/
theorem insertItems_keys (cols : List ColumnDefinition) (r : RowData) (c : String)
    (h : c ∈ (SquirrelDB.insertItems cols r).map Prod.fst) : c ∈ cols.map Prod.fst := by
  induction cols with
  | nil => simp [SquirrelDB.insertItems] at h
  | cons cd rest ih =>
    obtain ⟨cn, ct⟩ := cd
    rw [insertItems_cons] at h
    cases hl : r.lookup cn with
    | none =>
      simp only [hl] at h
      exact List.mem_cons_of_mem _ (ih h)
    | some v =>
      by_cases hu : isUndefV v = true
      · simp only [hl, hu, if_true] at h
        exact List.mem_cons_of_mem _ (ih h)
      · simp only [hl, hu, Bool.false_eq_true, if_false] at h
        simp only [List.map_cons, List.mem_cons] at h ⊢
        rcases h with h | h
        · exact Or.inl h
        · exact Or.inr (ih h)

/-- With distinct column names, what `add` binds for a declared column. -/
theorem insertItems_lookup (cols : List ColumnDefinition) (r : RowData) (c : String) (ty : CType)
    (hnd : nodupKeys (cols.map Prod.fst) = true) (hmem : (c, ty) ∈ cols) :
    (SquirrelDB.insertItems cols r).lookup c
      = match r.lookup c with
        | none => none
        | some v => if isUndefV v then none else some (SquirrelDB.serializeValue v ty) := by
  induction cols with
  | nil => cases hmem
  | cons cd rest ih =>
    obtain ⟨cn, ct⟩ := cd
    simp only [List.map_cons, nodupKeys, Bool.and_eq_true, Bool.not_eq_true'] at hnd
    obtain ⟨hna, hnrest⟩ := hnd
    rw [insertItems_cons]
    by_cases hc : cn = c
    · subst hc
      have hnotin : (SquirrelDB.insertItems rest r).lookup cn = none := by
        apply lookup_none_of_not_mem
        intro hmm
        have hm := insertItems_keys rest r cn hmm
        have hcon : (rest.map Prod.fst).contains cn = true := by
          simpa [List.contains] using List.elem_eq_true_of_mem hm
        rw [hcon] at hna
        cases hna
      have hty : ct = ty := by
        rcases List.mem_cons.mp hmem with heq | hmem'
        · injection heq with _ h2
          exact h2.symm
        · exfalso
          have hm : cn ∈ rest.map Prod.fst := List.mem_map.mpr ⟨(cn, ty), hmem', rfl⟩
          have hcon : (rest.map Prod.fst).contains cn = true := by
            simpa [List.contains] using List.elem_eq_true_of_mem hm
          rw [hcon] at hna
          cases hna
      subst hty
      cases hl : r.lookup cn with
      | none => simp only [hl, hnotin]
      | some v =>
        by_cases hu : isUndefV v = true
        · simp only [hl, hu, if_true, hnotin]
        · simp only [hl, hu, Bool.false_eq_true, if_false, List.lookup_cons, beq_self_eq_true]
    · have hmem' : (c, ty) ∈ rest := by
        rcases List.mem_cons.mp hmem with heq | h'
        · injection heq with h1 _
          exact absurd h1.symm hc
        · exact h'
      cases hl : r.lookup cn with
      | none => simp only [hl]; exact ih hnrest hmem'
      | some v =>
        by_cases hu : isUndefV v = true
        · simp only [hl, hu, if_true]
          exact ih hnrest hmem'
        · simp only [hl, hu, Bool.false_eq_true, if_false, List.lookup_cons,
            beq_false_of_ne (fun e => hc e.symm)]
          exact ih hnrest hmem'

/-- After an `INSERT OR REPLACE`, the row found under the inserted id is the
inserted one (every surviving older row has a different key). -/
theorem find?_filter_append (rows : List (JSVal × RowData)) (s : String) (items : RowData) :
    ((rows.filter (fun rr => !(rr.fst == JSVal.str s))) ++ [(JSVal.str s, items)]).find?
        (fun rr => rr.fst == JSVal.str s) = some (JSVal.str s, items) := by
  have hb : (JSVal.str s == JSVal.str s) = true := by
    show JSVal.beq (JSVal.str s) (JSVal.str s) = true
    show (s == s) = true
    exact beq_self_eq_true s
  induction rows with
  | nil => simp [List.find?, hb]
  | cons rr rest ih =>
    by_cases hk : (rr.fst == JSVal.str s) = true
    · simp only [List.filter_cons, hk, Bool.not_true, Bool.false_eq_true, if_false]
      exact ih
    · have hk' : (rr.fst == JSVal.str s) = false := by
        cases h : (rr.fst == JSVal.str s) with
        | true => exact absurd h hk
        | false => rfl
      simp only [List.filter_cons, hk', Bool.not_false, if_true, List.cons_append,
        List.find?_cons, hk']
      exact ih

/-- `deserializeRow` emits only declared column names. -/
theorem deserializeRow_keys (cols : List ColumnDefinition) (row rec : RowData)
    (h : SquirrelDB.deserializeRow cols row = .ok rec) (c : String)
    (hc : c ∉ cols.map Prod.fst) : rec.lookup c = none := by
  induction cols generalizing rec with
  | nil =>
    simp only [SquirrelDB.deserializeRow, Except.ok.injEq] at h
    subst h
    rfl
  | cons cd rest ih =>
    obtain ⟨cn, ct⟩ := cd
    simp only [List.map_cons, List.mem_cons, not_or] at hc
    obtain ⟨hc1, hc2⟩ := hc
    cases hl : row.lookup cn with
    | none =>
      simp only [SquirrelDB.deserializeRow, hl] at h
      exact ih rec h hc2
    | some v =>
      simp only [SquirrelDB.deserializeRow, hl] at h
      cases hd : SquirrelDB.deserializeValue v ct with
      | error e =>
        simp only [hd] at h
        exact Except.noConfusion h
      | ok v' =>
        simp only [hd] at h
        cases hr : SquirrelDB.deserializeRow rest row with
        | error e =>
          simp only [hr] at h
          exact Except.noConfusion h
        | ok tail =>
          simp only [hr, Except.ok.injEq] at h
          subst h
          rw [List.lookup_cons, beq_false_of_ne hc1]
          exact ih tail hr hc2

/-- Reading back the row just inserted: deserializing the projected row that
`add` built from record `r` succeeds column by column, and each column the
record supplied (with a non-`undefined` value) deserializes to exactly the
round-trip of its serialized value. -/
theorem deserializeRow_insert (allCols : List ColumnDefinition) (r : RowData)
    (hndAll : nodupKeys (allCols.map Prod.fst) = true)
    (hvals : ∀ c ty v, (c, ty) ∈ allCols → r.lookup c = some v → v ≠ JSVal.undef →
        ∃ w, SquirrelDB.deserializeValue (SquirrelDB.serializeValue v ty) ty = .ok w) :
    ∀ cols : List ColumnDefinition,
      (∀ cd, cd ∈ cols → cd ∈ allCols) → nodupKeys (cols.map Prod.fst) = true →
      ∃ rec, SquirrelDB.deserializeRow cols
          (projectRow (allCols.map Prod.fst) (SquirrelDB.insertItems allCols r)) = .ok rec
        ∧ ∀ c ty v w, (c, ty) ∈ cols → r.lookup c = some v → v ≠ JSVal.undef →
            SquirrelDB.deserializeValue (SquirrelDB.serializeValue v ty) ty = .ok w →
            rec.lookup c = some w := by
  intro cols
  induction cols with
  | nil =>
    intro _ _
    exact ⟨[], rfl, fun c ty v w hm _ _ _ => absurd hm (List.not_mem_nil _)⟩
  | cons cd rest ih =>
    intro hsub hndc
    obtain ⟨cn, ct⟩ := cd
    simp only [List.map_cons, nodupKeys, Bool.and_eq_true, Bool.not_eq_true'] at hndc
    obtain ⟨hna, hnrest⟩ := hndc
    obtain ⟨tail, htail, hprop⟩ :=
      ih (fun cd hcd => hsub cd (List.mem_cons_of_mem _ hcd)) hnrest
    have hmemAll : (cn, ct) ∈ allCols := hsub (cn, ct) (List.mem_cons_self _ _)
    have hcnMem : cn ∈ allCols.map Prod.fst := List.mem_map.mpr ⟨(cn, ct), hmemAll, rfl⟩
    have hrowlook : (projectRow (allCols.map Prod.fst)
          (SquirrelDB.insertItems allCols r)).lookup cn
        = some (((SquirrelDB.insertItems allCols r).lookup cn).getD JSVal.null) :=
      List.lookup_graph _ hcnMem
    have hitems := insertItems_lookup allCols r cn ct hndAll hmemAll
    have hcnrest : ∀ ty2, (cn, ty2) ∉ rest := by
      intro ty2 hmm
      have hm : cn ∈ rest.map Prod.fst := List.mem_map.mpr ⟨(cn, ty2), hmm, rfl⟩
      have hcon : (rest.map Prod.fst).contains cn = true := by
        simpa [List.contains] using List.elem_eq_true_of_mem hm
      rw [hcon] at hna
      cases hna
    cases hl : r.lookup cn with
    | none =>
      have hdv : SquirrelDB.deserializeValue
          (((SquirrelDB.insertItems allCols r).lookup cn).getD JSVal.null) ct
          = .ok JSVal.null := by
        rw [hitems]
        simp [hl, SquirrelDB.deserializeValue, isNullV]
      refine ⟨(cn, JSVal.null) :: tail, ?_, ?_⟩
      · simp only [SquirrelDB.deserializeRow, hrowlook, hdv, htail]
      · intro c ty v w hm hr hv hdw
        rcases List.mem_cons.mp hm with heq | hmem'
        · injection heq with h1 _
          subst h1
          rw [hl] at hr
          exact Option.noConfusion hr
        · have hcne : c ≠ cn := by
            intro he
            subst he
            exact hcnrest ty hmem'
          rw [List.lookup_cons, beq_false_of_ne hcne]
          exact hprop c ty v w hmem' hr hv hdw
    | some v0 =>
      by_cases hu : v0 = JSVal.undef
      · subst hu
        have hdv : SquirrelDB.deserializeValue
            (((SquirrelDB.insertItems allCols r).lookup cn).getD JSVal.null) ct
            = .ok JSVal.null := by
          rw [hitems]
          simp [hl, isUndefV, SquirrelDB.deserializeValue, isNullV]
        refine ⟨(cn, JSVal.null) :: tail, ?_, ?_⟩
        · simp only [SquirrelDB.deserializeRow, hrowlook, hdv, htail]
        · intro c ty v w hm hr hv hdw
          rcases List.mem_cons.mp hm with heq | hmem'
          · injection heq with h1 _
            subst h1
            rw [hl] at hr
            injection hr with hr2
            exact absurd hr2.symm hv
          · have hcne : c ≠ cn := by
              intro he
              subst he
              exact hcnrest ty hmem'
            rw [List.lookup_cons, beq_false_of_ne hcne]
            exact hprop c ty v w hmem' hr hv hdw
      · obtain ⟨w0, hw0⟩ := hvals cn ct v0 hmemAll hl hu
        have hstored : ((SquirrelDB.insertItems allCols r).lookup cn).getD JSVal.null
            = SquirrelDB.serializeValue v0 ct := by
          rw [hitems]
          have hu' : isUndefV v0 = false := by
            cases v0 <;> simp [isUndefV] at hu ⊢
          simp [hl, hu']
        have hdv : SquirrelDB.deserializeValue
            (((SquirrelDB.insertItems allCols r).lookup cn).getD JSVal.null) ct
            = .ok w0 := by
          rw [hstored]
          exact hw0
        refine ⟨(cn, w0) :: tail, ?_, ?_⟩
        · simp only [SquirrelDB.deserializeRow, hrowlook, hdv, htail]
        · intro c ty v w hm hr hv hdw
          rcases List.mem_cons.mp hm with heq | hmem'
          · injection heq with h1 h2
            subst h1
            subst h2
            rw [hl] at hr
            injection hr with hr2
            subst hr2
            rw [hw0] at hdw
            injection hdw with hw
            subst hw
            simp [List.lookup_cons]
          · have hcne : c ≠ cn := by
              intro he
              subst he
              exact hcnrest ty hmem'
            rw [List.lookup_cons, beq_false_of_ne hcne]
            exact hprop c ty v w hmem' hr hv hdw

/-- What well-formedness gives for one registered table. -/
theorem WFState_facts (st : DBState) (t : String) (S : TableSchema)
    (hwf : WFState st = true) (hreg : st.schemas.lookup t = some S) :
    nodupKeys (S.columns.map Prod.fst) = true
    ∧ S.columns.lookup "id" = some CType.string
    ∧ ∃ pt, st.phys.lookup t = some pt
        ∧ (S.columns.map Prod.fst).all (fun c => pt.cols.contains c) = true := by
  have hmem := lookup_mem hreg
  have hsw := List.all_eq_true.mp hwf (t, S) hmem
  simp only [schemaWF, Bool.and_eq_true] at hsw
  obtain ⟨⟨h1, h2⟩, h3⟩ := hsw
  refine ⟨h1, by simpa using h2, ?_⟩
  cases hp : st.phys.lookup t with
  | none =>
    rw [hp] at h3
    exact Bool.noConfusion h3
  | some pt =>
    rw [hp] at h3
    exact ⟨pt, rfl, h3⟩

/-- The exact successful outcome of `add` on a well-formed registered table:
the physical table gains (or replaces) the row keyed by the record's id,
bound to the serialized schema∩record columns, and the input record is
returned. -/
theorem add_spec (st : DBState) (t : String) (S : TableSchema) (r : RowData) (pt : PhysTable)
    (s : String)
    (hreg : st.schemas.lookup t = some S) (hpt : st.phys.lookup t = some pt)
    (hall : (S.columns.map Prod.fst).all (fun c => pt.cols.contains c) = true)
    (hnd : nodupKeys (S.columns.map Prod.fst) = true)
    (hidty : S.columns.lookup "id" = some CType.string)
    (hid : r.lookup "id" = some (JSVal.str s))
    (hval : SquirrelDB.validateRowData st t r = .ok ()) :
    SquirrelDB.add st t r = .ok
      (⟨st.schemas, assocSet st.phys t
          ⟨pt.cols, pt.rows.filter (fun rr => !(rr.fst == JSVal.str s))
              ++ [(JSVal.str s, SquirrelDB.insertItems S.columns r)]⟩⟩, r) := by
  have hallitems : ((SquirrelDB.insertItems S.columns r).map Prod.fst).all
      (fun c => pt.cols.contains c) = true := by
    rw [List.all_eq_true]
    intro c hc
    exact List.all_eq_true.mp hall c (insertItems_keys _ _ _ hc)
  have hitemsid : (SquirrelDB.insertItems S.columns r).lookup "id"
      = some (JSVal.str s) := by
    rw [insertItems_lookup S.columns r "id" CType.string hnd (lookup_mem hidty)]
    simp [hid, isUndefV, SquirrelDB.serializeValue]
  have hins : sqlInsert st t (SquirrelDB.insertItems S.columns r) = .ok
      ⟨st.schemas, assocSet st.phys t
          ⟨pt.cols, pt.rows.filter (fun rr => !(rr.fst == JSVal.str s))
              ++ [(JSVal.str s, SquirrelDB.insertItems S.columns r)]⟩⟩ := by
    simp only [sqlInsert, hpt, hallitems, if_true, hitemsid]
  simp only [SquirrelDB.add, hval, hreg, hins]

/-- C2: after a successful `add` of a record valid for the schema of a
registered table (in a well-formed state, with a string id), `get` on that id
succeeds and returns a record agreeing with the input on every column present
in both the schema and the input record. -/
theorem spec_C2 (st : DBState) (t : String) (S : TableSchema) (r : RowData) (s : String)
    (hwf : WFState st = true) (hreg : st.schemas.lookup t = some S)
    (hval : ValidRecord S r = true) (hid : r.lookup "id" = some (JSVal.str s))
    (st' : DBState) (ret : RowData)
    (hadd : SquirrelDB.add st t r = .ok (st', ret)) :
    ∃ rec, SquirrelDB.get st' t s = .ok (some rec)
      ∧ ∀ c ty v, (c, ty) ∈ S.columns → r.lookup c = some v → v ≠ JSVal.undef →
          rec.lookup c = some v := by
  obtain ⟨hnd, hidty, pt, hpt, hall⟩ := WFState_facts st t S hwf hreg
  -- validation succeeded inside `hadd`
  have hvr : SquirrelDB.validateRowData st t r = .ok () := by
    cases hv : SquirrelDB.validateRowData st t r with
    | ok u => cases u; rfl
    | error e =>
      simp only [SquirrelDB.add, hv] at hadd
      exact Except.noConfusion hadd
  have hspec := add_spec st t S r pt s hreg hpt hall hnd hidty hid hvr
  rw [hadd] at hspec
  simp only [Except.ok.injEq, Prod.mk.injEq] at hspec
  obtain ⟨hst', _⟩ := hspec
  -- value-level hypothesis from record validity
  have hvals : ∀ c ty v, (c, ty) ∈ S.columns → r.lookup c = some v → v ≠ JSVal.undef →
      ∃ w, SquirrelDB.deserializeValue (SquirrelDB.serializeValue v ty) ty = .ok w := by
    intro c ty v hm hr hv
    have hcol := List.all_eq_true.mp ((Bool.and_eq_true _ _).mp hval).2 (c, ty) hm
    simp only [hr] at hcol
    have hmt : matchesType v ty = true := by
      rcases (Bool.or_eq_true _ _).mp hcol with h | h
      · exfalso
        cases v <;> simp [isUndefV] at h ⊢
        exact hv rfl
      · exact h
    exact ⟨v, deserialize_serialize v ty hmt⟩
  obtain ⟨rec, hrow, hprop⟩ :=
    deserializeRow_insert S.columns r hnd hvals S.columns (fun cd h => h) hnd
  refine ⟨rec, ?_, ?_⟩
  · rw [hst']
    simp only [SquirrelDB.get, hreg, sqlSelectOne, assocSet_lookup_self, hall, if_true,
      find?_filter_append, hrow]
  · intro c ty v hm hr hv
    exact hprop c ty v v hm hr hv
      (deserialize_serialize v ty (by
        have hcol := List.all_eq_true.mp ((Bool.and_eq_true _ _).mp hval).2 (c, ty) hm
        simp only [hr] at hcol
        rcases (Bool.or_eq_true _ _).mp hcol with h | h
        · exfalso
          cases v <;> simp [isUndefV] at h ⊢
          exact hv rfl
        · exact h))

/-- A concrete valid record for the write-then-read witness. -/
def c2Row : RowData := [("id", .str "x"), ("age", .num 30)]

/-- The state after adding `c2Row` (computed by the operation itself). -/
def c2After : DBState :=
  match SquirrelDB.add wState "t" c2Row with
  | .ok p => p.fst
  | .error _ => wState

/-- C2 witness: the write-then-read property at a concrete record. -/
theorem spec_C2_witness :
    ∃ rec, SquirrelDB.get c2After "t" "x" = .ok (some rec)
      ∧ ∀ c ty v,
          (c, ty) ∈ (⟨[("id", CType.string), ("age", CType.number)]⟩ : TableSchema).columns →
          c2Row.lookup c = some v → v ≠ JSVal.undef → rec.lookup c = some v :=
  spec_C2 wState "t" ⟨[("id", CType.string), ("age", CType.number)]⟩ c2Row "x"
    rfl rfl rfl rfl c2After c2Row rfl

/-! ### Well-typed stored rows (for C9) -/

/-- Property update: the untouched keys keep their bindings. -/
theorem jsSet_lookup_ne (r : RowData) (c c' : String) (v : JSVal) (h : c' ≠ c) :
    (jsSet r c v).lookup c' = r.lookup c' := by
  induction r with
  | nil => simp [jsSet, List.lookup_cons, beq_false_of_ne h]
  | cons p rest ih =>
    obtain ⟨a, b⟩ := p
    by_cases ha : a = c
    · subst ha
      simp [jsSet, List.lookup_cons, beq_false_of_ne h]
    · by_cases hk : c' = a
      · subst hk
        simp [jsSet, ha, List.lookup_cons]
      · simp [jsSet, ha, List.lookup_cons, beq_false_of_ne hk, ih]

/-- Property update: the set key reads the new value. -/
theorem jsSet_lookup_self (r : RowData) (c : String) (v : JSVal) :
    (jsSet r c v).lookup c = some v := by
  induction r with
  | nil => simp [jsSet, List.lookup_cons]
  | cons p rest ih =>
    obtain ⟨a, b⟩ := p
    by_cases ha : a = c
    · subst ha
      simp [jsSet, List.lookup_cons]
    · simp only [jsSet, if_neg ha]
      rw [List.lookup_cons, beq_false_of_ne (fun e => ha e.symm)]
      exact ih

/-- The `typeof` test the validator applies per column type (`json` needs
none). -/
def tyCheckOK (v : JSVal) : CType → Bool
  | .string => jsTypeof v == "string"
  | .number => jsTypeof v == "number"
  | .boolean => jsTypeof v == "boolean"
  | .json => true

/-- A stored primitive consistent with its column's storage use: `string`
columns hold text or `NULL`, `number` columns numbers or `NULL`; `boolean` and
`json` columns deserialize whatever is there. -/
def storedOK : CType → JSVal → Bool
  | _, .null => true
  | .string, .str _ => true
  | .string, _ => false
  | .number, .num _ => true
  | .number, _ => false
  | .boolean, _ => true
  | .json, _ => true

/-- A well-typed stored row: keyed by a nonempty string that its `id` column
repeats, with every declared column's stored value `storedOK`. Rows written by
`add` always look like this. -/
def rowWT (S : TableSchema) (key : JSVal) (row : RowData) : Bool :=
  match key with
  | .str k =>
    (k != "")
    && (match row.lookup "id" with
        | some (JSVal.str a) => a == k
        | _ => false)
    && S.columns.all (fun cd =>
        match row.lookup cd.fst with
        | none => true
        | some sv => storedOK cd.snd sv)
  | _ => false

/-- Every stored row of every registered table is well typed. -/
def WTState (st : DBState) : Bool :=
  st.schemas.all (fun p =>
    match st.phys.lookup p.fst with
    | some pt => pt.rows.all (fun rr => rowWT p.snd rr.fst rr.snd)
    | none => true)

/-- What well-typedness gives for one stored row. -/
theorem WTState_facts (st : DBState) (t : String) (S : TableSchema) (pt : PhysTable)
    (rr : JSVal × RowData) (hwt : WTState st = true)
    (hreg : st.schemas.lookup t = some S) (hpt : st.phys.lookup t = some pt)
    (hmem : rr ∈ pt.rows) : rowWT S rr.fst rr.snd = true := by
  have h := List.all_eq_true.mp hwt (t, S) (lookup_mem hreg)
  simp only [hpt] at h
  exact List.all_eq_true.mp h rr hmem

/-- The validator accepts a record whose present declared-column values are
`null` or pass the column's `typeof` test. -/
theorem checkColumns_ok (cols : List ColumnDefinition) (data : RowData)
    (h : ∀ c ty, (c, ty) ∈ cols → ∀ v, data.lookup c = some v →
        isNullV v = true ∨ tyCheckOK v ty = true) :
    SquirrelDB.checkColumns cols data = .ok () := by
  induction cols with
  | nil => rfl
  | cons cd rest ih =>
    obtain ⟨cn, ct⟩ := cd
    have ihr := ih (fun c ty hm v hv => h c ty (List.mem_cons_of_mem _ hm) v hv)
    cases hl : data.lookup cn with
    | none => simp only [SquirrelDB.checkColumns, hl]; exact ihr
    | some v =>
      rcases h cn ct (List.mem_cons_self _ _) v hl with hn | hok
      · simp only [SquirrelDB.checkColumns, hl, hn, if_true]
        exact ihr
      · by_cases hn : isNullV v = true
        · simp only [SquirrelDB.checkColumns, hl, hn, if_true]
          exact ihr
        · simp only [SquirrelDB.checkColumns, hl, hn, Bool.false_eq_true, if_false]
          cases ct with
          | string =>
            simp only [tyCheckOK, beq_iff_eq] at hok
            simp only [hok, if_pos]
            exact ihr
          | number =>
            simp only [tyCheckOK, beq_iff_eq] at hok
            simp only [hok, if_pos]
            exact ihr
          | boolean =>
            simp only [tyCheckOK, beq_iff_eq] at hok
            simp only [hok, if_pos]
            exact ihr
          | json => exact ihr

/-- Any value that `deserializeValue` can produce re-serializes and
deserializes again without error (`string`/`number`/`boolean` columns always
do; a `json` column's parse output is `undefined`-free, so the codec
round-trips it). -/
theorem deser_reserializable (w : JSVal) (ty : CType) (v : JSVal)
    (h : SquirrelDB.deserializeValue w ty = .ok v) :
    ∃ w', SquirrelDB.deserializeValue (SquirrelDB.serializeValue v ty) ty = .ok w' := by
  cases ty with
  | string =>
    refine ⟨if isNullV v then JSVal.null else v, ?_⟩
    simp only [SquirrelDB.serializeValue, SquirrelDB.deserializeValue]
    by_cases hn : isNullV v = true <;> simp [hn]
  | number =>
    refine ⟨if isNullV v then JSVal.null else SquirrelDB.jsNumber v, ?_⟩
    simp only [SquirrelDB.serializeValue, SquirrelDB.deserializeValue]
    by_cases hn : isNullV v = true <;> simp [hn]
  | boolean =>
    by_cases ht : truthy v = true
    · refine ⟨JSVal.bool true, ?_⟩
      simp [SquirrelDB.serializeValue, SquirrelDB.deserializeValue, ht, isNullV]
      rfl
    · have ht' : truthy v = false := by
        cases h2 : truthy v with
        | true => exact absurd h2 ht
        | false => rfl
      refine ⟨JSVal.bool false, ?_⟩
      simp [SquirrelDB.serializeValue, SquirrelDB.deserializeValue, ht', isNullV]
      rfl
  | json =>
    have hnu : noUndef v = true := by
      simp only [SquirrelDB.deserializeValue] at h
      by_cases hn : isNullV w = true
      · rw [if_pos hn] at h
        injection h with h2
        subst h2
        rfl
      · rw [if_neg hn] at h
        exact jsonParse_noUndef _ _ h
    refine ⟨v, ?_⟩
    simp only [SquirrelDB.serializeValue, SquirrelDB.deserializeValue]
    rw [if_neg (by simp [isNullV])]
    exact jsonParse_stringify v hnu

/-- Deserializing a `storedOK` value yields `null` or a value passing the
validator's `typeof` test for that column type. -/
theorem deser_output_checkOK (ty : CType) (w v : JSVal)
    (hok : storedOK ty w = true) (h : SquirrelDB.deserializeValue w ty = .ok v) :
    isNullV v = true ∨ tyCheckOK v ty = true := by
  by_cases hn : isNullV w = true
  · left
    simp only [SquirrelDB.deserializeValue, hn, if_true] at h
    injection h with h2
    subst h2
    rfl
  · simp only [SquirrelDB.deserializeValue, hn, Bool.false_eq_true, if_false] at h
    cases ty with
    | string =>
      cases w <;> simp [storedOK] at hok <;> simp [isNullV] at hn
      · injection h with h2
        subst h2
        right
        rfl
    | number =>
      cases w <;> simp [storedOK] at hok <;> simp [isNullV] at hn
      · injection h with h2
        subst h2
        right
        rfl
    | boolean =>
      injection h with h2
      subst h2
      right
      rfl
    | json => right; rfl

/-- Inverting one column of a successful `deserializeRow`: the emitted value
is the deserialization of the row's stored value. -/
theorem deserializeRow_inv (cols : List ColumnDefinition) (row rec : RowData)
    (h : SquirrelDB.deserializeRow cols row = .ok rec)
    (hnd : nodupKeys (cols.map Prod.fst) = true)
    (c : String) (ty : CType) (hm : (c, ty) ∈ cols) (w : JSVal)
    (hw : row.lookup c = some w) :
    ∃ v', SquirrelDB.deserializeValue w ty = .ok v' ∧ rec.lookup c = some v' := by
  induction cols generalizing rec with
  | nil => cases hm
  | cons cd rest ih =>
    obtain ⟨cn, ct⟩ := cd
    simp only [List.map_cons, nodupKeys, Bool.and_eq_true, Bool.not_eq_true'] at hnd
    obtain ⟨hna, hnrest⟩ := hnd
    by_cases hc : c = cn
    · subst hc
      have hty : ct = ty := by
        rcases List.mem_cons.mp hm with heq | hmem'
        · injection heq with _ h2
          exact h2.symm
        · exfalso
          have hmm : c ∈ rest.map Prod.fst := List.mem_map.mpr ⟨(c, ty), hmem', rfl⟩
          have hcon : (rest.map Prod.fst).contains c = true := by
            simpa [List.contains] using List.elem_eq_true_of_mem hmm
          rw [hcon] at hna
          cases hna
      subst hty
      simp only [SquirrelDB.deserializeRow, hw] at h
      cases hd : SquirrelDB.deserializeValue w ct with
      | error e =>
        simp only [hd] at h
        exact Except.noConfusion h
      | ok v' =>
        simp only [hd] at h
        cases hr : SquirrelDB.deserializeRow rest row with
        | error e =>
          simp only [hr] at h
          exact Except.noConfusion h
        | ok tail =>
          simp only [hr, Except.ok.injEq] at h
          subst h
          exact ⟨v', rfl, by simp [List.lookup_cons]⟩
    · have hmem' : (c, ty) ∈ rest := by
        rcases List.mem_cons.mp hm with heq | h'
        · injection heq with h1 _
          exact absurd h1 hc
        · exact h'
      cases hl : row.lookup cn with
      | none =>
        simp only [SquirrelDB.deserializeRow, hl] at h
        exact ih rec h hnrest hmem'
      | some w0 =>
        simp only [SquirrelDB.deserializeRow, hl] at h
        cases hd : SquirrelDB.deserializeValue w0 ct with
        | error e =>
          simp only [hd] at h
          exact Except.noConfusion h
        | ok v0 =>
          simp only [hd] at h
          cases hr : SquirrelDB.deserializeRow rest row with
          | error e =>
            simp only [hr] at h
            exact Except.noConfusion h
          | ok tail =>
            simp only [hr, Except.ok.injEq] at h
            subst h
            obtain ⟨v', hd', hl'⟩ := ih tail hr hnrest hmem'
            refine ⟨v', hd', ?_⟩
            rw [List.lookup_cons, beq_false_of_ne hc]
            exact hl'

theorem find?_pred_true {α : Type} (p : α → Bool) (l : List α) (a : α)
    (h : l.find? p = some a) : p a = true := by
  induction l with
  | nil => exact Option.noConfusion h
  | cons x xs ih =>
    cases hp : p x
    · simp only [List.find?, hp] at h
      exact ih h
    · simp only [List.find?, hp] at h
      injection h with h2
      subst h2
      exact hp

/-- Inverting a successful `get`: some stored row was found under the id and
deserialized through the schema. -/
theorem get_inv (st : DBState) (t s : String) (S : TableSchema) (pt : PhysTable) (rec : RowData)
    (hreg : st.schemas.lookup t = some S) (hpt : st.phys.lookup t = some pt)
    (hall : (S.columns.map Prod.fst).all (fun c => pt.cols.contains c) = true)
    (h : SquirrelDB.get st t s = .ok (some rec)) :
    ∃ rr, pt.rows.find? (fun x => x.fst == JSVal.str s) = some rr
      ∧ SquirrelDB.deserializeRow S.columns
          (projectRow (S.columns.map Prod.fst) rr.snd) = .ok rec := by
  simp only [SquirrelDB.get, hreg, sqlSelectOne, hpt, hall, if_true] at h
  cases hf : pt.rows.find? (fun x => x.fst == JSVal.str s) with
  | none =>
    simp only [hf] at h
    injection h with h2
    exact Option.noConfusion h2
  | some rr =>
    simp only [hf] at h
    cases hd : SquirrelDB.deserializeRow S.columns
        (projectRow (S.columns.map Prod.fst) rr.snd) with
    | error e =>
      simp only [hd] at h
      exact Except.noConfusion h
    | ok rec0 =>
      simp only [hd] at h
      injection h with h2
      injection h2 with h3
      subst h3
      exact ⟨rr, rfl, hd⟩

/-- C9: on a registered table (well-formed, well-typed state), incrementing a
column *not declared* in the schema on an existing record succeeds and returns
exactly the delta (`record[column]` is `undefined`, coerced to `0`), but the
field is never persisted: `add` writes only declared schema columns, so a
subsequent `get` returns a record without the field. -/
theorem spec_C9 (st : DBState) (t s c : String) (d : Int) (S : TableSchema) (rec : RowData)
    (hwf : WFState st = true) (hwt : WTState st = true)
    (hreg : st.schemas.lookup t = some S)
    (hc : c ∉ S.columns.map Prod.fst)
    (hget : SquirrelDB.get st t s = .ok (some rec)) :
    ∃ st', SquirrelDB.increment st t s c d = .ok (st', d)
      ∧ ∃ rec', SquirrelDB.get st' t s = .ok (some rec') ∧ rec'.lookup c = none := by
  obtain ⟨hnd, hidty, pt, hpt, hall⟩ := WFState_facts st t S hwf hreg
  obtain ⟨rr, hfind, hdrow⟩ := get_inv st t s S pt rec hreg hpt hall hget
  have hrecc : rec.lookup c = none := deserializeRow_keys _ _ _ hdrow c hc
  have hmemrr : rr ∈ pt.rows := List.mem_of_find?_eq_some hfind
  have hkey : (rr.fst == JSVal.str s) = true :=
    find?_pred_true (fun x => x.fst == JSVal.str s) pt.rows rr hfind
  have hwtr := WTState_facts st t S pt rr hwt hreg hpt hmemrr
  obtain ⟨k, hk⟩ : ∃ k, rr.fst = JSVal.str k := by
    cases hkf : rr.fst with
    | str a => exact ⟨a, rfl⟩
    | undef => rw [hkf] at hwtr; exact Bool.noConfusion hwtr
    | null => rw [hkf] at hwtr; exact Bool.noConfusion hwtr
    | bool b => rw [hkf] at hwtr; exact Bool.noConfusion hwtr
    | num n => rw [hkf] at hwtr; exact Bool.noConfusion hwtr
    | arr es => rw [hkf] at hwtr; exact Bool.noConfusion hwtr
    | obj fs => rw [hkf] at hwtr; exact Bool.noConfusion hwtr
  rw [hk] at hkey
  have hks : s = k := (eq_of_beq (show (k == s) = true from hkey)).symm
  subst hks
  rw [hk] at hwtr
  simp only [rowWT, Bool.and_eq_true] at hwtr
  obtain ⟨⟨hkne, hidrow⟩, hcolsWT⟩ := hwtr
  have hidmemf : "id" ∈ S.columns.map Prod.fst :=
    List.mem_map.mpr ⟨("id", CType.string), lookup_mem hidty, rfl⟩
  have hidc : "id" ≠ c := fun he => hc (he ▸ hidmemf)
  obtain ⟨hida, ha0⟩ : rr.snd.lookup "id" = some (JSVal.str s) ∧ True := by
    cases hi : rr.snd.lookup "id" with
    | none => rw [hi] at hidrow; exact Bool.noConfusion hidrow
    | some w =>
      cases w with
      | str a =>
        rw [hi] at hidrow
        have : a = s := eq_of_beq (show (a == s) = true from hidrow)
        subst this
        exact ⟨rfl, trivial⟩
      | undef => rw [hi] at hidrow; exact Bool.noConfusion hidrow
      | null => rw [hi] at hidrow; exact Bool.noConfusion hidrow
      | bool b => rw [hi] at hidrow; exact Bool.noConfusion hidrow
      | num n => rw [hi] at hidrow; exact Bool.noConfusion hidrow
      | arr es => rw [hi] at hidrow; exact Bool.noConfusion hidrow
      | obj fs => rw [hi] at hidrow; exact Bool.noConfusion hidrow
  have hrowid : (projectRow (S.columns.map Prod.fst) rr.snd).lookup "id"
      = some ((rr.snd.lookup "id").getD JSVal.null) := List.lookup_graph _ hidmemf
  rw [hida, Option.getD_some] at hrowid
  obtain ⟨vid, hvid, hrecid⟩ := deserializeRow_inv S.columns _ rec hdrow hnd "id"
    CType.string (lookup_mem hidty) _ hrowid
  have hvid' : vid = JSVal.str s := by
    rw [show SquirrelDB.deserializeValue (JSVal.str s) CType.string
        = .ok (JSVal.str s) from rfl] at hvid
    exact (Except.ok.inj hvid).symm
  subst hvid'
  -- the written-back record
  have hjg : jsGet rec c = JSVal.undef := by simp [jsGet, hrecc]
  have hrec'id : (jsSet rec c (JSVal.num (0 + d))).lookup "id" = some (JSVal.str s) := by
    rw [jsSet_lookup_ne _ _ _ _ hidc]
    exact hrecid
  -- every declared column of the written-back record keeps rec's value
  have hrec'cols : ∀ c2 ty2, (c2, ty2) ∈ S.columns →
      (jsSet rec c (JSVal.num (0 + d))).lookup c2 = rec.lookup c2 := by
    intro c2 ty2 hm2
    have hc2c : c2 ≠ c := fun he =>
      hc (he ▸ List.mem_map.mpr ⟨(c2, ty2), hm2, rfl⟩)
    exact jsSet_lookup_ne _ _ _ _ hc2c
  -- characterize declared-column values of rec (deserializer outputs)
  have hrecchar : ∀ c2 ty2, (c2, ty2) ∈ S.columns → ∀ v2, rec.lookup c2 = some v2 →
      ∃ w2, storedOK ty2 w2 = true ∧ SquirrelDB.deserializeValue w2 ty2 = .ok v2 := by
    intro c2 ty2 hm2 v2 hv2
    have hm2f : c2 ∈ S.columns.map Prod.fst := List.mem_map.mpr ⟨(c2, ty2), hm2, rfl⟩
    have hrowc2 : (projectRow (S.columns.map Prod.fst) rr.snd).lookup c2
        = some ((rr.snd.lookup c2).getD JSVal.null) := List.lookup_graph _ hm2f
    obtain ⟨v2', hdv2, hlv2⟩ := deserializeRow_inv S.columns _ rec hdrow hnd c2 ty2 hm2 _ hrowc2
    rw [hv2] at hlv2
    injection hlv2 with hv2eq
    subst hv2eq
    refine ⟨(rr.snd.lookup c2).getD JSVal.null, ?_, hdv2⟩
    have hwtcol := List.all_eq_true.mp hcolsWT (c2, ty2) hm2
    cases hsv : rr.snd.lookup c2 with
    | none => simp [hsv, storedOK]
    | some sv =>
      rw [hsv] at hwtcol
      simpa [hsv] using hwtcol
  -- validation of the written-back record succeeds
  have hval : SquirrelDB.validateRowData st t (jsSet rec c (JSVal.num (0 + d))) = .ok () := by
    simp only [SquirrelDB.validateRowData, hreg]
    rw [show jsGet (jsSet rec c (JSVal.num (0 + d))) "id" = JSVal.str s from by
      simp only [jsGet, hrec'id, Option.getD_some]]
    rw [show truthy (JSVal.str s) = true from hkne]
    simp only [Bool.not_true, Bool.false_eq_true, if_false]
    apply checkColumns_ok
    intro c2 ty2 hm2 v2 hv2
    rw [hrec'cols c2 ty2 hm2] at hv2
    obtain ⟨w2, hok2, hd2⟩ := hrecchar c2 ty2 hm2 v2 hv2
    exact deser_output_checkOK ty2 w2 v2 hok2 hd2
  have hadd2 := add_spec st t S (jsSet rec c (JSVal.num (0 + d))) pt s hreg hpt hall hnd
    hidty hrec'id hval
  -- increment computes through get, the falsy coercion, and add
  have hinc : SquirrelDB.increment st t s c d = .ok
      (⟨st.schemas, assocSet st.phys t
          ⟨pt.cols, pt.rows.filter (fun x => !(x.fst == JSVal.str s))
              ++ [(JSVal.str s, SquirrelDB.insertItems S.columns
                    (jsSet rec c (JSVal.num (0 + d))))]⟩⟩, 0 + d) := by
    simp only [SquirrelDB.increment, hget, hjg, truthy, Bool.false_eq_true, if_false, hadd2]
  rw [show (0 : Int) + d = d from by omega] at hinc hadd2
  refine ⟨_, hinc, ?_⟩
  -- the final read
  have hvals2 : ∀ c2 ty2 v2, (c2, ty2) ∈ S.columns →
      (jsSet rec c (JSVal.num d)).lookup c2 = some v2 → v2 ≠ JSVal.undef →
      ∃ w', SquirrelDB.deserializeValue (SquirrelDB.serializeValue v2 ty2) ty2 = .ok w' := by
    intro c2 ty2 v2 hm2 hv2 _
    have hc2c : c2 ≠ c := fun he =>
      hc (he ▸ List.mem_map.mpr ⟨(c2, ty2), hm2, rfl⟩)
    rw [jsSet_lookup_ne _ _ _ _ hc2c] at hv2
    obtain ⟨w2, _, hd2⟩ := hrecchar c2 ty2 hm2 v2 hv2
    exact deser_reserializable w2 ty2 v2 hd2
  obtain ⟨rec'', hrow2, _⟩ := deserializeRow_insert S.columns
    (jsSet rec c (JSVal.num d)) hnd hvals2 S.columns (fun cd h => h) hnd
  refine ⟨rec'', ?_, deserializeRow_keys _ _ _ hrow2 c hc⟩
  simp only [SquirrelDB.get, hreg, sqlSelectOne, assocSet_lookup_self, hall, if_true,
    find?_filter_append, hrow2]

/-- A concrete well-formed, well-typed state with one stored row, for the
increment-on-undeclared-column witness. -/
def c9State : DBState :=
  ⟨[("t", ⟨[("id", CType.string), ("age", CType.number)]⟩)],
   [("t", ⟨["id", "age"], [(.str "x", [("id", .str "x"), ("age", .num 30)])]⟩)]⟩

/-- C9 witness: incrementing the undeclared column `score` by 7 on the stored
record succeeds returning 7, and the following `get` lacks `score`. -/
theorem spec_C9_witness :
    ∃ st', SquirrelDB.increment c9State "t" "x" "score" 7 = .ok (st', 7)
      ∧ ∃ rec', SquirrelDB.get st' "t" "x" = .ok (some rec')
          ∧ rec'.lookup "score" = none :=
  spec_C9 c9State "t" "x" "score" 7 ⟨[("id", CType.string), ("age", CType.number)]⟩
    [("id", .str "x"), ("age", .num 30)] (by decide) (by decide) rfl (by decide) rfl
